import Mathlib

/-!
Verification of the daisy block-wise dependency scheduler.

The planner (`create_dependency_graph` and its helpers) is translated from
`src/daisy/blocks.py`; the executor outcome classification is translated from
`src/daisy/dask_scheduler.py`.  The geometric primitives `Coordinate`, `Roi`
and `Block` live in repository modules that are not part of the packaged
sources, so they are modelled from the specification's data-model section.
-/

namespace Daisy

/-- Modelled from the spec: a `Coordinate` (the repository's `coordinate.py`
is not in the packaged sources) is an N-element sequence of signed integers
with element-wise arithmetic. -/
abbrev Coordinate := List Int

/-- Modelled from the spec: element-wise addition of coordinates. -/
def cadd (a b : Coordinate) : Coordinate := List.zipWith (· + ·) a b

/-- Modelled from the spec: element-wise subtraction of coordinates. -/
def csub (a b : Coordinate) : Coordinate := List.zipWith (· - ·) a b

/-- Modelled from the spec: element-wise maximum of coordinates. -/
def cmax (a b : Coordinate) : Coordinate := List.zipWith max a b

/-- Modelled from the spec: element-wise minimum of coordinates. -/
def cmin (a b : Coordinate) : Coordinate := List.zipWith min a b

/-- Element-wise `≤` between coordinates, as a boolean. -/
def leAll (a b : Coordinate) : Bool := (List.zipWith (fun x y => decide (x ≤ y)) a b).all id

/-- Element-wise `<` between coordinates, as a boolean. -/
def ltAll (a b : Coordinate) : Bool := (List.zipWith (fun x y => decide (x < y)) a b).all id

/-- Modelled from the spec: an axis-aligned N-D region, a pair
`(offset, shape)` (the repository's `roi.py` is not in the packaged
sources). -/
structure Roi where
  offset : Coordinate
  shape : Coordinate
deriving DecidableEq, Repr

/-- `begin` of a `Roi`: its offset. -/
def Roi.get_begin (r : Roi) : Coordinate := r.offset

/-- `end` of a `Roi`: `offset + shape`. -/
def Roi.get_end (r : Roi) : Coordinate := cadd r.offset r.shape

/-- `shape` accessor, mirroring the source's `get_shape`. -/
def Roi.get_shape (r : Roi) : Coordinate := r.shape

/-- Modelled from the spec: half-open point containment
`begin ≤ p < end` componentwise. -/
def Roi.contains_point (r : Roi) (p : Coordinate) : Bool :=
  leAll r.get_begin p && ltAll p r.get_end

/-- Modelled from the spec: region containment
`begin ≤ other.begin ∧ other.end ≤ end` componentwise. -/
def Roi.contains_roi (r other : Roi) : Bool :=
  leAll r.get_begin other.get_begin && leAll other.get_end r.get_end

/-- Modelled from the spec: intersection takes the componentwise maximum of
begins and minimum of ends, with the shape clamped at 0. -/
def Roi.intersect (a b : Roi) : Roi :=
  let b0 := cmax a.get_begin b.get_begin
  let e0 := cmin a.get_end b.get_end
  ⟨b0, List.zipWith (fun x y => max (y - x) 0) b0 e0⟩

/-- Modelled from the spec: `grow` moves the offset back by `amount_neg` and
enlarges the shape by `amount_neg + amount_pos`. -/
def Roi.grow (r : Roi) (amount_neg amount_pos : Coordinate) : Roi :=
  ⟨csub r.offset amount_neg, cadd r.shape (cadd amount_neg amount_pos)⟩

/-- Translation of a `Roi` by a coordinate (the source's `roi + coordinate`). -/
def Roi.shift (r : Roi) (o : Coordinate) : Roi := ⟨cadd r.offset o, r.shape⟩

/-- Modelled from the spec: a `Roi` is empty when some shape component is
not positive (intersection clamps shapes at 0). -/
def Roi.is_empty (r : Roi) : Bool := r.shape.any (fun s => decide (s ≤ 0))

/-- Well-formedness of a `Roi` relative to a dimension count. -/
@[reducible] def Roi.dims_ok (r : Roi) (n : Nat) : Prop :=
  r.offset.length = n ∧ r.shape.length = n

/-- Modelled from the spec: a block records the total ROI it was planned in
together with its read and write ROIs (the repository's `block.py` is not in
the packaged sources; the hash-derived `block_id` is a function of these
fields and is not needed here). -/
structure Block where
  total_roi : Roi
  read_roi : Roi
  write_roi : Roi
deriving DecidableEq, Repr

/-! ### Planner, translated from `src/daisy/blocks.py` -/

/-- Python's `range(start, stop, step)` over integers. -/
def rangeStep (start stop step : Int) : List Int :=
  if 0 < step then
    (List.range (((stop - start - 1).fdiv step + 1).toNat)).map
      (fun k : Nat => start + step * (k : Int))
  else if step < 0 then
    (List.range (((stop - start + 1).fdiv step + 1).toNat)).map
      (fun k : Nat => start + step * (k : Int))
  else []

/-- `itertools.product` over a list of per-axis choices, in product order
(first axis slowest). -/
def cartProd : List (List Int) → List (List Int)
  | [] => [[]]
  | l :: ls => l.flatMap (fun x => (cartProd ls).map (fun t => x :: t))

/-- Three-list `zipWith`, truncating to the shortest list like Python's
`zip`. -/
def zipWith3 {α : Type} (f : Int → Int → Int → α) : List Int → List Int → List Int → List α
  | a :: as, b :: bs, c :: cs => f a b c :: zipWith3 f as bs cs
  | _, _, _ => []

/-- `compute_level_stride` from `blocks.py`.  The Python function raises an
`AssertionError` when the read ROI does not contain the write ROI, and a
`ZeroDivisionError` when a write-shape component is zero; both are modelled
as `Except.error`. -/
def compute_level_stride (block_read_roi block_write_roi : Roi) : Except String Coordinate :=
  if Roi.contains_roi block_read_roi block_write_roi then
    let context_ul := csub block_write_roi.get_begin block_read_roi.get_begin
    let context_lr := csub block_read_roi.get_end block_write_roi.get_end
    let max_context := cmax context_ul context_lr
    let min_level_stride := cadd max_context block_write_roi.get_shape
    let write_shape := block_write_roi.get_shape
    if write_shape.any (fun w => decide (w = 0)) then
      Except.error "integer division or modulo by zero"
    else
      Except.ok (List.zipWith (fun l w => ((l - 1).fdiv w + 1) * w) min_level_stride write_shape)
  else
    Except.error "Read ROI must contain write ROI."

/-- Modelled from the spec's words (section 4.2), for comparison with the
source's `compute_level_stride`: per axis, `ceil(min_stride / write_shape) *
write_shape` with `min_stride = max_context + write_shape`, where the
mathematical ceiling of `a / b` for `b > 0` is written `-((-a).fdiv b)`. -/
def specLevelStride (read write : Roi) : Coordinate :=
  let context_ul := csub write.get_begin read.get_begin
  let context_lr := csub read.get_end write.get_end
  let max_context := cmax context_ul context_lr
  List.zipWith (fun m w => -((-(m + w)).fdiv w) * w) max_context write.get_shape

/-- `compute_level_offsets` from `blocks.py`. -/
def compute_level_offsets (block_write_roi : Roi) (level_stride : Coordinate) :
    List Coordinate :=
  let write_stride := block_write_roi.get_shape
  let dim_offsets := List.zipWith (fun e step => rangeStep 0 e step) level_stride write_stride
  (cartProd dim_offsets).reverse

/-- `get_conflict_offsets` from `blocks.py`. -/
def get_conflict_offsets (level_offset prev_level_offset level_stride : Coordinate) :
    List Coordinate :=
  let offset_to_prev := csub prev_level_offset level_offset
  cartProd (List.zipWith
    (fun op ls => if op < 0 then [op, op + ls] else [op - ls, op])
    offset_to_prev level_stride)

/-- `shrink` from `blocks.py` (pure version: the Python function mutates the
block in place and returns it). -/
def shrink (total_roi : Roi) (block : Block) : Block :=
  let r := Roi.intersect total_roi block.read_roi
  let w := Roi.grow block.write_roi
    (csub block.read_roi.get_begin r.get_begin)
    (csub r.get_end block.read_roi.get_end)
  { block with read_roi := r, write_roi := w }

/-- `shrink_possible` from `blocks.py`. -/
def shrink_possible (total_roi : Roi) (block : Block) : Bool :=
  if Roi.contains_point total_roi block.write_roi.get_begin then
    (shrink total_roi block).write_roi.get_shape.all (fun s => decide (0 < s))
  else false

/-- The three fit policies of `enumerate_blocks`. -/
inductive Fit
  | valid
  | overhang
  | shrink
deriving DecidableEq, Repr

/-- The inclusion test of `enumerate_blocks`, returning also the block it
leaves behind: in the Python source `shrink_possible` mutates the tested
block in place (it is already shrunk once by the time it is accepted), so the
pure model returns the updated block alongside the verdict. -/
def apply_inclusion (fit : Fit) (total_roi : Roi) (b : Block) : Bool × Block :=
  match fit with
  | .valid => (Roi.contains_roi total_roi b.read_roi, b)
  | .overhang => (Roi.contains_point total_roi b.write_roi.get_begin, b)
  | .shrink =>
      if Roi.contains_point total_roi b.write_roi.get_begin then
        let b2 := shrink total_roi b
        (b2.write_roi.get_shape.all (fun s => decide (0 < s)), b2)
      else (false, b)

/-- The `fit_block` adjuster of `enumerate_blocks`. -/
def fit_block (fit : Fit) (total_roi : Roi) (b : Block) : Block :=
  match fit with
  | .valid => b
  | .overhang => b
  | .shrink => shrink total_roi b

/-- The verdict of the inclusion test on a block. -/
def ok_of (fit : Fit) (t : Roi) (b : Block) : Bool := (apply_inclusion fit t b).1

/-- The block left behind by the inclusion test (shrunk once under the
shrink fit, unchanged otherwise). -/
def mut_of (fit : Fit) (t : Roi) (b : Block) : Block := (apply_inclusion fit t b).2

/-- The block as emitted: the fit adjuster applied to the block left behind
by the inclusion test. -/
def emit_of (fit : Fit) (t : Roi) (b : Block) : Block :=
  fit_block fit t (apply_inclusion fit t b).2

/-- The candidate block of `enumerate_blocks` at a given offset. -/
def candidate_block (t r w : Roi) (o : Coordinate) : Block :=
  Block.mk t (Roi.shift r o) (Roi.shift w o)

/-- The candidate upstream block reached from `b` by a conflict offset. -/
def conflict_block (t : Roi) (b : Block) (co : Coordinate) : Block :=
  Block.mk t (Roi.shift b.read_roi co) (Roi.shift b.write_roi co)

/-- The upstream list of a block: conflict offsets resolved against the same
inclusion criterion and fit adjuster. -/
def upstreams_of (fit : Fit) (t : Roi) (b : Block) (cs : List Coordinate) : List Block :=
  cs.filterMap (fun co =>
    if ok_of fit t (conflict_block t b co) then some (emit_of fit t (conflict_block t b co))
    else none)

/-- `enumerate_blocks` from `blocks.py`.  In the source, `inclusion_criteria`
under the shrink fit mutates the tested block in place, so the conflict
candidates are built from the once-shrunk block (`mut_of`), and the final
`fit_block` shrinks it a second time. -/
def enumerate_blocks (total_roi block_read_roi block_write_roi : Roi)
    (conflict_offsets : List Coordinate) (block_offsets : List Coordinate)
    (fit : Fit) : List (Block × List Block) :=
  block_offsets.filterMap (fun block_offset =>
    if ok_of fit total_roi
        (candidate_block total_roi block_read_roi block_write_roi block_offset) then
      some (emit_of fit total_roi
          (candidate_block total_roi block_read_roi block_write_roi block_offset),
        upstreams_of fit total_roi
          (mut_of fit total_roi
            (candidate_block total_roi block_read_roi block_write_roi block_offset))
          conflict_offsets)
    else none)

/-- Per-level conflict-offset lists for levels after the first; mirrors the
first loop of `create_dependency_graph`, where `prev` is the offset of the
preceding level. -/
def level_conflicts_go (level_stride : Coordinate) (rwc : Bool) :
    Coordinate → List Coordinate → List (List Coordinate)
  | _, [] => []
  | prev, o :: rest =>
      (if rwc then get_conflict_offsets o prev level_stride else []) ::
        level_conflicts_go level_stride rwc o rest

/-- All per-level conflict-offset lists: the first level has none. -/
def level_conflicts (level_offsets : List Coordinate) (level_stride : Coordinate)
    (rwc : Bool) : List (List Coordinate) :=
  match level_offsets with
  | [] => []
  | o :: rest => [] :: level_conflicts_go level_stride rwc o rest

/-- The per-level block enumeration of `create_dependency_graph`: per-axis
ranges from the level offset across the total shape in steps of the level
stride, shifted to global coordinates. -/
def blocks_for_level (total_roi block_read_roi block_write_roi : Roi)
    (level_stride level_offset : Coordinate) (conflict_offsets : List Coordinate)
    (fit : Fit) : List (Block × List Block) :=
  let block_dim_offsets :=
    zipWith3 (fun lo e s => rangeStep lo e s) level_offset total_roi.get_shape level_stride
  let block_offsets := (cartProd block_dim_offsets).map
    (fun o => cadd o (csub total_roi.get_begin block_read_roi.get_begin))
  enumerate_blocks total_roi block_read_roi block_write_roi conflict_offsets block_offsets fit

/-- `create_dependency_graph` from `blocks.py`. -/
def create_dependency_graph (total_roi block_read_roi block_write_roi : Roi)
    (read_write_conflict : Bool) (fit : Fit) :
    Except String (List (Block × List Block)) :=
  match compute_level_stride block_read_roi block_write_roi with
  | .error e => .error e
  | .ok level_stride =>
      let level_offsets := compute_level_offsets block_write_roi level_stride
      let conflicts := level_conflicts level_offsets level_stride read_write_conflict
      .ok ((level_offsets.zip conflicts).flatMap
        (fun lc => blocks_for_level total_roi block_read_roi block_write_roi
          level_stride lc.1 lc.2 fit))

/-! ### Executor adapter, translated from `src/daisy/dask_scheduler.py` -/

/-- Outcome of invoking the user's `process_function` on a block: it either
returns normally or raises. -/
inductive ProcOutcome
  | success
  | raises
deriving DecidableEq, Repr

/-- `check_and_run` from `dask_scheduler.py`. -/
def check_and_run (block : Block) (process_function : Block → ProcOutcome)
    (pre_check post_check : Block → Bool) : Int :=
  if pre_check block then 0
  else
    match process_function block with
    | .raises => -2
    | .success => if post_check block then 1 else -1

/-- The default `pre_check` installed by `run_blockwise` when no
`check_function` is given. -/
def default_pre_check : Block → Bool := fun _ => false

/-- The default `post_check` installed by `run_blockwise` when no
`check_function` is given. -/
def default_post_check : Block → Bool := fun _ => true

/-- The aggregate-success computation at the end of `run_blockwise`:
`len(failed) + len(errored) == 0` over the per-block results. -/
def run_blockwise_success (results : List Int) : Bool :=
  decide ((results.filter (fun r => decide (r = -1))).length +
    (results.filter (fun r => decide (r = -2))).length = 0)

/-! ### Componentwise access lemmas -/

@[simp] lemma length_cadd (a b : Coordinate) : (cadd a b).length = min a.length b.length := by
  simp [cadd]

@[simp] lemma length_csub (a b : Coordinate) : (csub a b).length = min a.length b.length := by
  simp [csub]

@[simp] lemma length_cmax (a b : Coordinate) : (cmax a b).length = min a.length b.length := by
  simp [cmax]

@[simp] lemma length_cmin (a b : Coordinate) : (cmin a b).length = min a.length b.length := by
  simp [cmin]

@[simp] lemma length_get_end (r : Roi) :
    r.get_end.length = min r.offset.length r.shape.length := by
  simp [Roi.get_end]

lemma getD_cadd {a b : Coordinate} {i : Nat} (ha : i < a.length) (hb : i < b.length) :
    (cadd a b).getD i 0 = a.getD i 0 + b.getD i 0 := by
  rw [List.getD_eq_getElem _ _ (by simp; omega), List.getD_eq_getElem _ _ ha,
    List.getD_eq_getElem _ _ hb]
  simp [cadd]

lemma getD_csub {a b : Coordinate} {i : Nat} (ha : i < a.length) (hb : i < b.length) :
    (csub a b).getD i 0 = a.getD i 0 - b.getD i 0 := by
  rw [List.getD_eq_getElem _ _ (by simp; omega), List.getD_eq_getElem _ _ ha,
    List.getD_eq_getElem _ _ hb]
  simp [csub]

lemma getD_cmax {a b : Coordinate} {i : Nat} (ha : i < a.length) (hb : i < b.length) :
    (cmax a b).getD i 0 = max (a.getD i 0) (b.getD i 0) := by
  rw [List.getD_eq_getElem _ _ (by simp; omega), List.getD_eq_getElem _ _ ha,
    List.getD_eq_getElem _ _ hb]
  simp [cmax]

lemma getD_cmin {a b : Coordinate} {i : Nat} (ha : i < a.length) (hb : i < b.length) :
    (cmin a b).getD i 0 = min (a.getD i 0) (b.getD i 0) := by
  rw [List.getD_eq_getElem _ _ (by simp; omega), List.getD_eq_getElem _ _ ha,
    List.getD_eq_getElem _ _ hb]
  simp [cmin]

lemma getD_get_end {r : Roi} {i : Nat} (ho : i < r.offset.length) (hs : i < r.shape.length) :
    r.get_end.getD i 0 = r.offset.getD i 0 + r.shape.getD i 0 :=
  getD_cadd ho hs

lemma zip_all_decide_iff (p : Int → Int → Prop) [DecidableRel p] {a b : Coordinate}
    (h : a.length = b.length) :
    ((List.zipWith (fun x y => decide (p x y)) a b).all id = true) ↔
      ∀ i, i < a.length → p (a.getD i 0) (b.getD i 0) := by
  rw [List.all_eq_true]
  constructor
  · intro H i hi
    have hz : i < (List.zipWith (fun x y => decide (p x y)) a b).length := by simp; omega
    have h2 := H _ (List.getElem_mem hz)
    simp only [List.getElem_zipWith, id] at h2
    rw [List.getD_eq_getElem _ _ hi, List.getD_eq_getElem _ _ (by omega)]
    exact of_decide_eq_true h2
  · intro H x hx
    obtain ⟨i, hi, rfl⟩ := List.mem_iff_getElem.mp hx
    have hia : i < a.length := by simp at hi; omega
    simp only [List.getElem_zipWith, id]
    have h3 := H i hia
    rw [List.getD_eq_getElem _ _ hia, List.getD_eq_getElem _ _ (by omega)] at h3
    exact decide_eq_true h3

lemma leAll_iff {a b : Coordinate} (h : a.length = b.length) :
    leAll a b = true ↔ ∀ i, i < a.length → a.getD i 0 ≤ b.getD i 0 :=
  zip_all_decide_iff (· ≤ ·) h

lemma ltAll_iff {a b : Coordinate} (h : a.length = b.length) :
    ltAll a b = true ↔ ∀ i, i < a.length → a.getD i 0 < b.getD i 0 :=
  zip_all_decide_iff (· < ·) h

lemma contains_roi_iff {r o : Roi} {n : Nat} (hr : r.dims_ok n) (ho : o.dims_ok n) :
    Roi.contains_roi r o = true ↔
      ∀ i, i < n →
        r.offset.getD i 0 ≤ o.offset.getD i 0 ∧
        o.offset.getD i 0 + o.shape.getD i 0 ≤ r.offset.getD i 0 + r.shape.getD i 0 := by
  obtain ⟨hr1, hr2⟩ := hr
  obtain ⟨ho1, ho2⟩ := ho
  rw [Roi.contains_roi, Bool.and_eq_true, Roi.get_begin, Roi.get_begin,
    leAll_iff (by omega), leAll_iff (by simp; omega)]
  constructor
  · intro ⟨H1, H2⟩ i hi
    refine ⟨H1 i (by omega), ?_⟩
    have h2 := H2 i (by simp; omega)
    rw [getD_get_end (by omega) (by omega), getD_get_end (by omega) (by omega)] at h2
    exact h2
  · intro H
    refine ⟨fun i hi => (H i (by omega)).1, fun i hi => ?_⟩
    have hin : i < n := by simp at hi; omega
    rw [getD_get_end (by omega) (by omega), getD_get_end (by omega) (by omega)]
    exact (H i hin).2

lemma contains_point_iff {r : Roi} {p : Coordinate} {n : Nat} (hr : r.dims_ok n)
    (hp : p.length = n) :
    Roi.contains_point r p = true ↔
      ∀ i, i < n →
        r.offset.getD i 0 ≤ p.getD i 0 ∧
        p.getD i 0 < r.offset.getD i 0 + r.shape.getD i 0 := by
  obtain ⟨hr1, hr2⟩ := hr
  rw [Roi.contains_point, Bool.and_eq_true, Roi.get_begin,
    leAll_iff (by omega), ltAll_iff (by simp; omega)]
  constructor
  · intro ⟨H1, H2⟩ i hi
    refine ⟨H1 i (by omega), ?_⟩
    have h2 := H2 i (by omega)
    rw [getD_get_end (by omega) (by omega)] at h2
    exact h2
  · intro H
    refine ⟨fun i hi => (H i (by omega)).1, fun i hi => ?_⟩
    have hin : i < n := by omega
    rw [getD_get_end (by omega) (by omega)]
    exact (H i hin).2

lemma getD_zipWith {f : Int → Int → Int} {a b : List Int} {i : Nat}
    (ha : i < a.length) (hb : i < b.length) :
    (List.zipWith f a b).getD i 0 = f (a.getD i 0) (b.getD i 0) := by
  rw [List.getD_eq_getElem _ _ (by simp; omega), List.getD_eq_getElem _ _ ha,
    List.getD_eq_getElem _ _ hb]
  simp

/-! ### Integer ceiling-to-multiple lemmas -/

lemma fdiv_mul_le (a : Int) {b : Int} (hb : 0 < b) : a.fdiv b * b ≤ a := by
  have h1 := Int.fmod_add_fdiv a b
  have h2 := Int.fmod_nonneg' a hb
  rw [mul_comm]
  linarith

lemma ceil_mul_lower {l w : Int} (hw : 0 < w) : l ≤ ((l - 1).fdiv w + 1) * w := by
  have h := Int.lt_fdiv_add_one_mul_self (l - 1) hw
  omega

lemma ceil_mul_upper {l w : Int} (hw : 0 < w) : ((l - 1).fdiv w + 1) * w < l + w := by
  have h := fdiv_mul_le (l - 1) hw
  have h2 : ((l - 1).fdiv w + 1) * w = (l - 1).fdiv w * w + w := by ring
  linarith

lemma ceil_neg_fdiv {l w : Int} (hw : 0 < w) : (l - 1).fdiv w + 1 = -((-l).fdiv w) := by
  have h1 := Int.fmod_add_fdiv (l - 1) w
  have h2 := Int.fmod_add_fdiv (-l) w
  have h3 := Int.fmod_nonneg' (l - 1) hw
  have h4 := Int.fmod_lt_of_pos (l - 1) hw
  have h5 := Int.fmod_nonneg' (-l) hw
  have h6 := Int.fmod_lt_of_pos (-l) hw
  set q1 := (l - 1).fdiv w with hq1
  set q2 := (-l).fdiv w with hq2
  have hsum : w * (q1 + q2) = -1 - (l - 1).fmod w - (-l).fmod w := by
    have hd : w * (q1 + q2) = w * q1 + w * q2 := by ring
    linarith
  have hlt : w * (q1 + q2) < w * 0 := by
    rw [mul_zero]
    linarith
  have hgt : w * (-2) < w * (q1 + q2) := by
    have hd : w * (-2) = -2 * w := by ring
    linarith
  have l1 : q1 + q2 < 0 := lt_of_mul_lt_mul_left hlt (le_of_lt hw)
  have l2 : -2 < q1 + q2 := lt_of_mul_lt_mul_left hgt (le_of_lt hw)
  omega

lemma zipWith_congr_on {f g : Int → Int → Int} {P : Int → Prop}
    (hfg : ∀ x y, P y → f x y = g x y) :
    ∀ (a b : List Int), (∀ y ∈ b, P y) → List.zipWith f a b = List.zipWith g a b := by
  intro a
  induction a with
  | nil => intro b _; rfl
  | cons x xs ih =>
    intro b hb
    cases b with
    | nil => rfl
    | cons y ys =>
      simp only [List.zipWith]
      rw [hfg x y (hb y (by simp)), ih ys (fun z hz => hb z (by simp [hz]))]

lemma zipWith_zipWith_left (f h : Int → Int → Int) :
    ∀ (a b : List Int),
      List.zipWith f (List.zipWith h a b) b = List.zipWith (fun x y => f (h x y) y) a b := by
  intro a
  induction a with
  | nil => intro b; rfl
  | cons x xs ih =>
    intro b
    cases b with
    | nil => rfl
    | cons y ys => simp only [List.zipWith, ih]

lemma list_ext_getD {a b : List Int} (hl : a.length = b.length)
    (h : ∀ i, i < a.length → a.getD i 0 = b.getD i 0) : a = b := by
  apply List.ext_getElem hl
  intro i h1 h2
  have h3 := h i h1
  rwa [List.getD_eq_getElem _ _ h1, List.getD_eq_getElem _ _ h2] at h3

lemma pos_mem_of_getD {l : List Int} {n : Nat} (hl : l.length = n)
    (h : ∀ i, i < n → 0 < l.getD i 0) : ∀ y ∈ l, 0 < y := by
  intro y hy
  obtain ⟨i, hi, rfl⟩ := List.mem_iff_getElem.mp hy
  have h2 := h i (by omega)
  rwa [List.getD_eq_getElem _ _ hi] at h2

lemma any_zero_false_of_pos {l : List Int} {n : Nat} (hl : l.length = n)
    (h : ∀ i, i < n → 0 < l.getD i 0) :
    (l.any (fun w => decide (w = 0))) = false := by
  rw [Bool.eq_false_iff]
  intro hc
  rw [List.any_eq_true] at hc
  obtain ⟨x, hx, hx0⟩ := hc
  have := pos_mem_of_getD hl h x hx
  simp at hx0
  omega

/-! ### Facts about `compute_level_stride` -/

lemma compute_level_stride_eq_ok {read write : Roi}
    (hc : Roi.contains_roi read write = true)
    (hnz : (write.shape.any (fun w => decide (w = 0))) = false) :
    compute_level_stride read write = Except.ok
      (List.zipWith (fun l w => ((l - 1).fdiv w + 1) * w)
        (cadd (cmax (csub write.offset read.offset)
          (csub (cadd read.offset read.shape) (cadd write.offset write.shape))) write.shape)
        write.shape) := by
  unfold compute_level_stride
  rw [if_pos hc]
  simp only [Roi.get_shape, Roi.get_begin, Roi.get_end, hnz]
  simp

lemma compute_level_stride_ok {read write : Roi} {stride : Coordinate}
    (hok : compute_level_stride read write = Except.ok stride) :
    Roi.contains_roi read write = true ∧
    (write.shape.any (fun w => decide (w = 0))) = false ∧
    stride = List.zipWith (fun l w => ((l - 1).fdiv w + 1) * w)
      (cadd (cmax (csub write.offset read.offset)
        (csub (cadd read.offset read.shape) (cadd write.offset write.shape)))
        write.shape)
      write.shape := by
  unfold compute_level_stride at hok
  split at hok
  · dsimp only at hok
    split at hok
    · exact absurd hok (by simp)
    · refine ⟨by assumption, ?_, ?_⟩
      · have hne := (by assumption : ¬ (write.get_shape.any fun w => decide (w = 0)) = true)
        rw [Roi.get_shape] at hne
        exact Bool.eq_false_iff.mpr hne
      · have := hok
        simp only [Except.ok.injEq] at this
        rw [← this]
        simp [Roi.get_shape, Roi.get_begin, Roi.get_end]
  · exact absurd hok (by simp)

lemma stride_facts {read write : Roi} {stride : Coordinate} {n : Nat}
    (hR : read.dims_ok n) (hW : write.dims_ok n)
    (hw : ∀ i, i < n → 0 < write.shape.getD i 0)
    (hok : compute_level_stride read write = Except.ok stride) :
    stride.length = n ∧
    ∀ i, i < n →
      write.offset.getD i 0 + write.shape.getD i 0 - read.offset.getD i 0 ≤ stride.getD i 0 ∧
      read.offset.getD i 0 + read.shape.getD i 0 - write.offset.getD i 0 ≤ stride.getD i 0 ∧
      0 < stride.getD i 0 ∧
      write.shape.getD i 0 ∣ stride.getD i 0 := by
  obtain ⟨hc, _, hstr⟩ := compute_level_stride_ok hok
  obtain ⟨hR1, hR2⟩ := hR
  obtain ⟨hW1, hW2⟩ := hW
  have hcc := (@contains_roi_iff read write n ⟨hR1, hR2⟩ ⟨hW1, hW2⟩).mp hc
  have hlen : stride.length = n := by
    rw [hstr]
    simp
    omega
  refine ⟨hlen, fun i hi => ?_⟩
  have hwi := hw i hi
  obtain ⟨hc1, hc2⟩ := hcc i hi
  have hgs : stride.getD i 0 =
      ((max (write.offset.getD i 0 - read.offset.getD i 0)
          ((read.offset.getD i 0 + read.shape.getD i 0) -
            (write.offset.getD i 0 + write.shape.getD i 0)) +
        write.shape.getD i 0 - 1).fdiv (write.shape.getD i 0) + 1) *
        write.shape.getD i 0 := by
    rw [hstr, getD_zipWith (by simp; omega) (by omega),
      getD_cadd (by simp; omega) (by omega),
      getD_cmax (by simp; omega) (by simp; omega),
      getD_csub (by omega) (by omega),
      getD_csub (by simp; omega) (by simp; omega),
      getD_cadd (by omega) (by omega), getD_cadd (by omega) (by omega)]
  set w := write.shape.getD i 0 with hwdef
  set l := max (write.offset.getD i 0 - read.offset.getD i 0)
      ((read.offset.getD i 0 + read.shape.getD i 0) -
        (write.offset.getD i 0 + write.shape.getD i 0)) + w with hldef
  have hlow : l ≤ stride.getD i 0 := by
    rw [hgs]
    have := @ceil_mul_lower l w hwi
    omega
  have hdvd : w ∣ stride.getD i 0 := by
    rw [hgs]
    exact dvd_mul_left w _
  refine ⟨by omega, by omega, by omega, hdvd⟩

/-! ### Componentwise descriptions of `intersect`, `shift`, `grow`, `shrink` -/

lemma intersect_dims_ok {a b : Roi} {n : Nat} (ha : a.dims_ok n) (hb : b.dims_ok n) :
    (Roi.intersect a b).dims_ok n := by
  obtain ⟨ha1, ha2⟩ := ha
  obtain ⟨hb1, hb2⟩ := hb
  constructor <;> simp [Roi.intersect, Roi.get_begin, Roi.get_end] <;> omega

lemma intersect_offset_getD {a b : Roi} {n : Nat} (ha : a.dims_ok n) (hb : b.dims_ok n)
    {i : Nat} (hi : i < n) :
    (Roi.intersect a b).offset.getD i 0 = max (a.offset.getD i 0) (b.offset.getD i 0) := by
  obtain ⟨ha1, ha2⟩ := ha
  obtain ⟨hb1, hb2⟩ := hb
  show (cmax a.get_begin b.get_begin).getD i 0 = _
  rw [Roi.get_begin, Roi.get_begin, getD_cmax (by omega) (by omega)]

lemma intersect_shape_getD {a b : Roi} {n : Nat} (ha : a.dims_ok n) (hb : b.dims_ok n)
    {i : Nat} (hi : i < n) :
    (Roi.intersect a b).shape.getD i 0 =
      max (min (a.offset.getD i 0 + a.shape.getD i 0) (b.offset.getD i 0 + b.shape.getD i 0) -
        max (a.offset.getD i 0) (b.offset.getD i 0)) 0 := by
  obtain ⟨ha1, ha2⟩ := ha
  obtain ⟨hb1, hb2⟩ := hb
  show (List.zipWith (fun x y => max (y - x) 0) (cmax a.get_begin b.get_begin)
    (cmin a.get_end b.get_end)).getD i 0 = _
  rw [getD_zipWith (by simp [Roi.get_begin]; omega) (by simp [Roi.get_end]; omega),
    Roi.get_begin, Roi.get_begin, getD_cmax (by omega) (by omega),
    Roi.get_end, Roi.get_end, getD_cmin (by simp; omega) (by simp; omega),
    getD_cadd (by omega) (by omega), getD_cadd (by omega) (by omega)]

lemma shift_dims_ok {r : Roi} {o : Coordinate} {n : Nat} (hr : r.dims_ok n)
    (ho : o.length = n) : (Roi.shift r o).dims_ok n := by
  obtain ⟨hr1, hr2⟩ := hr
  constructor <;> simp [Roi.shift] <;> omega

lemma shift_offset_getD {r : Roi} {o : Coordinate} {n : Nat} (hr : r.dims_ok n)
    (ho : o.length = n) {i : Nat} (hi : i < n) :
    (Roi.shift r o).offset.getD i 0 = r.offset.getD i 0 + o.getD i 0 := by
  obtain ⟨hr1, hr2⟩ := hr
  show (cadd r.offset o).getD i 0 = _
  rw [getD_cadd (by omega) (by omega)]

@[simp] lemma shift_shape (r : Roi) (o : Coordinate) : (Roi.shift r o).shape = r.shape := rfl

lemma shrink_read_roi (t : Roi) (b : Block) :
    (shrink t b).read_roi = Roi.intersect t b.read_roi := rfl

lemma shrink_total_roi (t : Roi) (b : Block) :
    (shrink t b).total_roi = b.total_roi := rfl

lemma shrink_dims_ok {t : Roi} {b : Block} {n : Nat} (ht : t.dims_ok n)
    (hr : b.read_roi.dims_ok n) (hw : b.write_roi.dims_ok n) :
    (shrink t b).read_roi.dims_ok n ∧ (shrink t b).write_roi.dims_ok n := by
  obtain ⟨ht1, ht2⟩ := ht
  obtain ⟨hr1, hr2⟩ := hr
  obtain ⟨hw1, hw2⟩ := hw
  refine ⟨intersect_dims_ok ⟨ht1, ht2⟩ ⟨hr1, hr2⟩, ?_, ?_⟩ <;>
    simp [shrink, Roi.grow, Roi.intersect, Roi.get_begin, Roi.get_end] <;> omega

lemma shrink_write_offset_getD {t : Roi} {b : Block} {n : Nat} (ht : t.dims_ok n)
    (hr : b.read_roi.dims_ok n) (hw : b.write_roi.dims_ok n) {i : Nat} (hi : i < n) :
    (shrink t b).write_roi.offset.getD i 0 =
      b.write_roi.offset.getD i 0 -
        (b.read_roi.offset.getD i 0 - max (t.offset.getD i 0) (b.read_roi.offset.getD i 0)) := by
  obtain ⟨hd1, hd2⟩ := intersect_dims_ok ht hr
  obtain ⟨hr1, hr2⟩ := hr
  obtain ⟨hw1, hw2⟩ := hw
  show (csub b.write_roi.offset
    (csub b.read_roi.get_begin (Roi.intersect t b.read_roi).get_begin)).getD i 0 = _
  rw [Roi.get_begin, Roi.get_begin,
    getD_csub (by omega) (by simp; omega),
    getD_csub (by omega) (by omega),
    intersect_offset_getD ht ⟨hr1, hr2⟩ hi]

lemma shrink_write_shape_getD {t : Roi} {b : Block} {n : Nat} (ht : t.dims_ok n)
    (hr : b.read_roi.dims_ok n) (hw : b.write_roi.dims_ok n) {i : Nat} (hi : i < n) :
    (shrink t b).write_roi.shape.getD i 0 =
      b.write_roi.shape.getD i 0 +
        (b.read_roi.offset.getD i 0 - (Roi.intersect t b.read_roi).offset.getD i 0) +
        ((Roi.intersect t b.read_roi).offset.getD i 0 +
            (Roi.intersect t b.read_roi).shape.getD i 0 -
          (b.read_roi.offset.getD i 0 + b.read_roi.shape.getD i 0)) := by
  obtain ⟨hd1, hd2⟩ := intersect_dims_ok ht hr
  obtain ⟨hr1, hr2⟩ := hr
  obtain ⟨hw1, hw2⟩ := hw
  show (cadd b.write_roi.shape
    (cadd (csub b.read_roi.get_begin (Roi.intersect t b.read_roi).get_begin)
      (csub (Roi.intersect t b.read_roi).get_end b.read_roi.get_end))).getD i 0 = _
  rw [Roi.get_begin, Roi.get_begin, Roi.get_end, Roi.get_end,
    getD_cadd (by omega) (by simp; omega),
    getD_cadd (by simp; omega) (by simp; omega),
    getD_csub (by omega) (by omega),
    getD_csub (by simp; omega) (by simp; omega),
    getD_cadd (by omega) (by omega), getD_cadd (by omega) (by omega)]
  ring

/-! ### Record extensionality helpers and idempotence of `shrink` -/

lemma roi_eq_of_parts {a b : Roi} (ho : a.offset = b.offset) (hs : a.shape = b.shape) :
    a = b := by
  cases a
  cases b
  cases ho
  cases hs
  rfl

lemma block_eq_of_parts {a b : Block} (h1 : a.total_roi = b.total_roi)
    (h2 : a.read_roi = b.read_roi) (h3 : a.write_roi = b.write_roi) : a = b := by
  cases a
  cases b
  cases h1
  cases h2
  cases h3
  rfl

lemma intersect_idem {t r : Roi} {n : Nat} (ht : t.dims_ok n) (hr : r.dims_ok n) :
    Roi.intersect t (Roi.intersect t r) = Roi.intersect t r := by
  have hd := intersect_dims_ok ht hr
  have hd2 := intersect_dims_ok ht hd
  obtain ⟨hda, hdb⟩ := hd
  obtain ⟨hd2a, hd2b⟩ := hd2
  apply roi_eq_of_parts
  · apply list_ext_getD (by omega)
    intro i hi
    have hin : i < n := by omega
    rw [intersect_offset_getD ht ⟨hda, hdb⟩ hin, intersect_offset_getD ht hr hin]
    omega
  · apply list_ext_getD (by omega)
    intro i hi
    have hin : i < n := by omega
    rw [intersect_shape_getD ht ⟨hda, hdb⟩ hin, intersect_offset_getD ht hr hin,
      intersect_shape_getD ht hr hin]
    omega

lemma grow_sub_self {r : Roi} {x y : Coordinate} {n : Nat} (hr : r.dims_ok n)
    (hx : x.length = n) (hy : y.length = n) :
    Roi.grow r (csub x x) (csub y y) = r := by
  obtain ⟨hr1, hr2⟩ := hr
  apply roi_eq_of_parts
  · apply list_ext_getD (by simp [Roi.grow]; omega)
    intro i hi
    have hin : i < n := by simp [Roi.grow] at hi; omega
    show (csub r.offset (csub x x)).getD i 0 = _
    rw [getD_csub (by omega) (by simp; omega), getD_csub (by omega) (by omega)]
    omega
  · apply list_ext_getD (by simp [Roi.grow]; omega)
    intro i hi
    have hin : i < n := by simp [Roi.grow] at hi; omega
    show (cadd r.shape (cadd (csub x x) (csub y y))).getD i 0 = _
    rw [getD_cadd (by omega) (by simp; omega), getD_cadd (by simp; omega) (by simp; omega),
      getD_csub (by omega) (by omega), getD_csub (by omega) (by omega)]
    omega

lemma shrink_shrink_eq {t : Roi} {b : Block} {n : Nat} (ht : t.dims_ok n)
    (hr : b.read_roi.dims_ok n) (hw : b.write_roi.dims_ok n) :
    shrink t (shrink t b) = shrink t b := by
  obtain ⟨hdr, hdw⟩ := shrink_dims_ok ht hr hw
  have hread : Roi.intersect t (shrink t b).read_roi = (shrink t b).read_roi := by
    rw [shrink_read_roi]
    exact intersect_idem ht hr
  apply block_eq_of_parts
  · rfl
  · show Roi.intersect t (shrink t b).read_roi = (shrink t b).read_roi
    exact hread
  · show Roi.grow (shrink t b).write_roi
      (csub (shrink t b).read_roi.get_begin (Roi.intersect t (shrink t b).read_roi).get_begin)
      (csub (Roi.intersect t (shrink t b).read_roi).get_end (shrink t b).read_roi.get_end) =
      (shrink t b).write_roi
    rw [hread]
    exact grow_sub_self hdw (by rw [Roi.get_begin]; exact hdr.1)
      (by rw [Roi.get_end]; simp [hdr.1, hdr.2])

/-! ### The spec formula for the level stride -/

lemma specLevelStride_eq (read write : Roi) :
    specLevelStride read write =
      List.zipWith (fun m w => -((-(m + w)).fdiv w) * w)
        (cmax (csub write.offset read.offset)
          (csub (cadd read.offset read.shape) (cadd write.offset write.shape)))
        write.shape := by
  simp [specLevelStride, Roi.get_shape, Roi.get_begin, Roi.get_end]

lemma specLevelStride_bridge {read write : Roi} (hpos : ∀ y ∈ write.shape, 0 < y) :
    List.zipWith (fun l w => ((l - 1).fdiv w + 1) * w)
      (cadd (cmax (csub write.offset read.offset)
        (csub (cadd read.offset read.shape) (cadd write.offset write.shape))) write.shape)
      write.shape = specLevelStride read write := by
  rw [specLevelStride_eq]
  unfold cadd
  rw [zipWith_zipWith_left]
  refine zipWith_congr_on ?_ _ _ hpos
  intro x y hy
  have h := @ceil_neg_fdiv (x + y) y hy
  rw [← h]

lemma specLevelStride_getD {read write : Roi} {n : Nat}
    (hR : read.dims_ok n) (hW : write.dims_ok n) {i : Nat} (hi : i < n) :
    (specLevelStride read write).getD i 0 =
      -((-(max (write.offset.getD i 0 - read.offset.getD i 0)
          (read.offset.getD i 0 + read.shape.getD i 0 -
            (write.offset.getD i 0 + write.shape.getD i 0)) +
        write.shape.getD i 0)).fdiv (write.shape.getD i 0)) * write.shape.getD i 0 := by
  obtain ⟨hR1, hR2⟩ := hR
  obtain ⟨hW1, hW2⟩ := hW
  rw [specLevelStride_eq,
    getD_zipWith (by simp; omega) (by omega),
    getD_cmax (by simp; omega) (by simp; omega),
    getD_csub (by omega) (by omega),
    getD_csub (by simp; omega) (by simp; omega),
    getD_cadd (by omega) (by omega), getD_cadd (by omega) (by omega)]

lemma compute_level_stride_err {read write : Roi}
    (h : Roi.contains_roi read write = false ∨ (0 : Int) ∈ write.shape) :
    ∃ msg, compute_level_stride read write = Except.error msg := by
  unfold compute_level_stride
  rcases h with h | h
  · rw [if_neg (by simp [h])]
    exact ⟨_, rfl⟩
  · by_cases hc : Roi.contains_roi read write = true
    · rw [if_pos hc]
      dsimp only
      have hany : (write.get_shape.any fun w => decide (w = 0)) = true :=
        List.any_eq_true.mpr ⟨0, by rw [Roi.get_shape]; exact h, by simp⟩
      rw [if_pos hany]
      exact ⟨_, rfl⟩
    · rw [if_neg hc]
      exact ⟨_, rfl⟩

/-! ### Range and Cartesian-product lemmas -/

lemma rangeStep_eq_map {start stop step : Int} (hs : 0 < step) :
    rangeStep start stop step =
      (List.range (((stop - start - 1).fdiv step + 1).toNat)).map
        (fun k : Nat => start + step * (k : Int)) := by
  unfold rangeStep
  rw [if_pos hs]

lemma length_rangeStep {start stop step : Int} (hs : 0 < step) :
    (rangeStep start stop step).length = ((stop - start - 1).fdiv step + 1).toNat := by
  rw [rangeStep_eq_map hs]
  simp

lemma mem_rangeStep {start stop step x : Int} (hs : 0 < step) :
    x ∈ rangeStep start stop step ↔ ∃ k : Nat, x = start + step * k ∧ x < stop := by
  rw [rangeStep_eq_map hs, List.mem_map]
  constructor
  · rintro ⟨k, hk, rfl⟩
    refine ⟨k, rfl, ?_⟩
    rw [List.mem_range] at hk
    have hk2 : (k : Int) ≤ (stop - start - 1).fdiv step := by omega
    have h3 : step * (k : Int) ≤ step * ((stop - start - 1).fdiv step) :=
      mul_le_mul_of_nonneg_left hk2 (le_of_lt hs)
    have h4 := fdiv_mul_le (stop - start - 1) hs
    have h5 : step * ((stop - start - 1).fdiv step) = (stop - start - 1).fdiv step * step :=
      mul_comm _ _
    linarith
  · rintro ⟨k, rfl, hlt⟩
    refine ⟨k, ?_, rfl⟩
    rw [List.mem_range]
    have h1 : (k : Int) * step ≤ stop - start - 1 := by
      have h2 : step * (k : Int) = (k : Int) * step := mul_comm _ _
      linarith
    have hk : (k : Int) ≤ (stop - start - 1) / step := (Int.le_ediv_iff_mul_le hs).mpr h1
    have hfd : (stop - start - 1).fdiv step = (stop - start - 1) / step :=
      Int.fdiv_eq_ediv _ (le_of_lt hs)
    omega

lemma mem_rangeStep_bounds {start stop step x : Int} (hs : 0 < step)
    (hx : x ∈ rangeStep start stop step) : start ≤ x ∧ x < stop := by
  obtain ⟨k, rfl, hlt⟩ := (mem_rangeStep hs).mp hx
  have : (0 : Int) ≤ step * k := mul_nonneg (le_of_lt hs) (by positivity)
  omega

lemma nodup_rangeStep {start stop step : Int} (hs : 0 < step) :
    (rangeStep start stop step).Nodup := by
  rw [rangeStep_eq_map hs]
  refine List.Nodup.map ?_ (List.nodup_range _)
  intro a b hab
  have hab2 : start + step * (a : Int) = start + step * (b : Int) := hab
  have h1 : step * (a : Int) = step * (b : Int) := by linarith
  have h2 : (a : Int) = b := mul_left_cancel₀ (ne_of_gt hs) h1
  exact_mod_cast h2

lemma fdiv_mul_add {w q r : Int} (hw : 0 < w) (hr0 : 0 ≤ r) (hrw : r < w) :
    (w * q + r).fdiv w = q := by
  rw [Int.fdiv_eq_ediv _ (le_of_lt hw), add_comm,
    Int.add_mul_ediv_left r q (ne_of_gt hw),
    Int.ediv_eq_zero_of_lt hr0 hrw]
  omega

lemma count_eq {e w : Int} (hw : 0 < w) (hd : w ∣ e) :
    ((e - 1).fdiv w + 1).toNat = (e.fdiv w).toNat := by
  obtain ⟨k, rfl⟩ := hd
  have h1 : (w * k - 1).fdiv w = k - 1 := by
    rw [show w * k - 1 = w * (k - 1) + (w - 1) by ring]
    exact fdiv_mul_add hw (by omega) (by omega)
  have h2 : (w * k).fdiv w = k := by
    rw [show w * k = w * k + 0 by ring]
    exact fdiv_mul_add hw le_rfl hw
  rw [h1, h2]
  omega

lemma cartProd_flatMap_length (c : List (List Int)) :
    ∀ l : List Int, (l.flatMap fun x => c.map (x :: ·)).length = l.length * c.length := by
  intro l
  induction l with
  | nil => simp
  | cons x xs ih =>
    rw [List.flatMap_cons]
    simp [ih]
    ring

lemma cartProd_length : ∀ ls : List (List Int),
    (cartProd ls).length = (ls.map List.length).prod := by
  intro ls
  induction ls with
  | nil => rfl
  | cons l ls ih =>
    show (l.flatMap fun x => (cartProd ls).map (x :: ·)).length = _
    rw [cartProd_flatMap_length, ih]
    simp

lemma mem_cartProd : ∀ {ls : List (List Int)} {o : List Int},
    o ∈ cartProd ls ↔ List.Forall₂ (fun x l => x ∈ l) o ls := by
  intro ls
  induction ls with
  | nil =>
    intro o
    show o ∈ [[]] ↔ _
    simp [List.forall₂_nil_right_iff]
  | cons l ls ih =>
    intro o
    show o ∈ l.flatMap _ ↔ _
    rw [List.mem_flatMap]
    constructor
    · rintro ⟨x, hx, ho⟩
      rw [List.mem_map] at ho
      obtain ⟨t, ht, rfl⟩ := ho
      exact List.Forall₂.cons hx (ih.mp ht)
    · intro h
      cases h with
      | cons hx ht => exact ⟨_, hx, List.mem_map.mpr ⟨_, ih.mpr ht, rfl⟩⟩

lemma nodup_cartProd : ∀ {ls : List (List Int)},
    (∀ l ∈ ls, l.Nodup) → (cartProd ls).Nodup := by
  intro ls
  induction ls with
  | nil =>
    intro _
    show ([[]] : List (List Int)).Nodup
    simp
  | cons l ls ih =>
    intro h
    show (l.flatMap fun x => (cartProd ls).map (x :: ·)).Nodup
    refine List.nodup_flatMap.mpr ⟨?_, ?_⟩
    · intro x _
      refine List.Nodup.map ?_ (ih fun l2 hl2 => h l2 (List.mem_cons_of_mem _ hl2))
      intro t1 t2 ht
      simpa using ht
    · have hnd : l.Nodup := h l (List.mem_cons_self _ _)
      refine hnd.imp ?_
      intro a b hab
      intro z hza hzb
      rw [List.mem_map] at hza hzb
      obtain ⟨t1, _, rfl⟩ := hza
      obtain ⟨t2, _, ht2⟩ := hzb
      have hbe : b = a ∧ t2 = t1 := by simpa using ht2
      exact hab hbe.1.symm

lemma zipWith_congr_getD {α : Type} {f g : Int → Int → α} :
    ∀ (a b : List Int),
      (∀ i, i < a.length → i < b.length →
        f (a.getD i 0) (b.getD i 0) = g (a.getD i 0) (b.getD i 0)) →
      List.zipWith f a b = List.zipWith g a b := by
  intro a
  induction a with
  | nil => intro b _; rfl
  | cons x xs ih =>
    intro b h
    cases b with
    | nil => rfl
    | cons y ys =>
      simp only [List.zipWith]
      have h0 : f x y = g x y := by simpa using h 0 (by simp) (by simp)
      have hrest : List.zipWith f xs ys = List.zipWith g xs ys :=
        ih ys fun i h1 h2 => by
          simpa using h (i + 1) (by simpa using h1) (by simpa using h2)
      rw [h0, hrest]

/-! ### Claim C2 -/

/-- C2: for a read ROI containing the write ROI with positive write shape,
`compute_level_stride` returns exactly the spec formula
`ceil((max_context + write_shape) / write_shape) * write_shape` per axis
(`specLevelStride`), which per axis is the smallest multiple of the write
shape at least `max_context + write_shape`. -/
theorem C2_level_stride_formula {read write : Roi} {n : Nat}
    (hR : read.dims_ok n) (hW : write.dims_ok n)
    (hc : Roi.contains_roi read write = true)
    (hw : ∀ i, i < n → 0 < write.shape.getD i 0) :
    compute_level_stride read write = Except.ok (specLevelStride read write) ∧
    ∀ i, i < n →
      write.shape.getD i 0 ∣ (specLevelStride read write).getD i 0 ∧
      max (write.offset.getD i 0 - read.offset.getD i 0)
          (read.offset.getD i 0 + read.shape.getD i 0 -
            (write.offset.getD i 0 + write.shape.getD i 0)) +
        write.shape.getD i 0 ≤ (specLevelStride read write).getD i 0 ∧
      (specLevelStride read write).getD i 0 <
        max (write.offset.getD i 0 - read.offset.getD i 0)
          (read.offset.getD i 0 + read.shape.getD i 0 -
            (write.offset.getD i 0 + write.shape.getD i 0)) +
        2 * write.shape.getD i 0 := by
  have hW2 := hW.2
  have hpos := pos_mem_of_getD hW2 hw
  have hnz := any_zero_false_of_pos hW2 hw
  have hok := compute_level_stride_eq_ok hc hnz
  constructor
  · rw [hok, specLevelStride_bridge hpos]
  · intro i hi
    have hwi := hw i hi
    have hval := specLevelStride_getD hR hW hi
    set m := max (write.offset.getD i 0 - read.offset.getD i 0)
      (read.offset.getD i 0 + read.shape.getD i 0 -
        (write.offset.getD i 0 + write.shape.getD i 0)) with hm
    set w := write.shape.getD i 0 with hwdef
    have hceil := @ceil_neg_fdiv (m + w) w hwi
    rw [hval, ← hceil]
    refine ⟨dvd_mul_left _ _, @ceil_mul_lower (m + w) w hwi, ?_⟩
    have h2 := @ceil_mul_upper (m + w) w hwi
    omega

/-- Witness for C2 at the spec's S2 scenario (1-D symmetric halo). -/
theorem C2_level_stride_formula_witness :
    compute_level_stride (Roi.mk [0] [30]) (Roi.mk [10] [10]) =
      Except.ok (specLevelStride (Roi.mk [0] [30]) (Roi.mk [10] [10])) :=
  (@C2_level_stride_formula (Roi.mk [0] [30]) (Roi.mk [10] [10]) 1
    (by decide) (by decide) (by decide) (by decide)).1

/-! ### Per-level conflict lists -/

lemma level_conflicts_go_eq (stride : Coordinate) (rwc : Bool) :
    ∀ (prev : Coordinate) (rest : List Coordinate),
      level_conflicts_go stride rwc prev rest =
        List.zipWith (fun cur prv => if rwc then get_conflict_offsets cur prv stride else [])
          rest (prev :: rest) := by
  intro prev rest
  induction rest generalizing prev with
  | nil => rfl
  | cons o rest ih =>
    show (if rwc then get_conflict_offsets o prev stride else []) ::
      level_conflicts_go stride rwc o rest = _
    rw [ih o]
    rfl

lemma level_conflicts_length (offsets : List Coordinate) (stride : Coordinate) (rwc : Bool) :
    (level_conflicts offsets stride rwc).length = offsets.length := by
  cases offsets with
  | nil => rfl
  | cons o rest =>
    show ([] :: level_conflicts_go stride rwc o rest).length = _
    rw [level_conflicts_go_eq]
    simp

lemma prod_zipWith_const_two :
    ∀ (a b : List Int), (List.zipWith (fun _ _ => (2 : Nat)) a b).prod =
      2 ^ (min a.length b.length) := by
  intro a
  induction a with
  | nil => intro b; simp
  | cons x xs ih =>
    intro b
    cases b with
    | nil => simp
    | cons y ys =>
      show 2 * (List.zipWith _ xs ys).prod = _
      rw [ih ys]
      show _ = 2 ^ (min (xs.length + 1) (ys.length + 1))
      rw [Nat.succ_min_succ, pow_succ]
      ring

lemma get_congr {α : Type} {l l2 : List α} (h : l = l2) {i : Nat} (hi : i < l.length) :
    l.get ⟨i, hi⟩ = l2.get ⟨i, h ▸ hi⟩ := by
  cases h
  rfl

lemma length_if_pair (op ls : Int) :
    (if op < 0 then [op, op + ls] else [op - ls, op]).length = 2 := by
  split <;> rfl

lemma get_conflict_offsets_length {lo prev stride : Coordinate}
    (h1 : lo.length = stride.length) (h2 : prev.length = stride.length) :
    (get_conflict_offsets lo prev stride).length = 2 ^ stride.length := by
  unfold get_conflict_offsets
  rw [cartProd_length, List.map_zipWith]
  simp only [length_if_pair]
  rw [prod_zipWith_const_two]
  congr 1
  simp
  omega

/-! ### Utilities for level enumeration -/

lemma length_zipWith3 {α : Type} (f : Int → Int → Int → α) :
    ∀ (a b c : List Int), (zipWith3 f a b c).length = min a.length (min b.length c.length) := by
  intro a
  induction a with
  | nil => intro b c; cases b <;> cases c <;> simp [zipWith3]
  | cons x xs ih =>
    intro b c
    cases b with
    | nil => simp [zipWith3]
    | cons y ys =>
      cases c with
      | nil => simp [zipWith3]
      | cons z zs =>
        show (f x y z :: zipWith3 f xs ys zs).length = _
        simp [ih]
        omega

lemma get_zipWith3 {α : Type} (f : Int → Int → Int → α) :
    ∀ (a b c : List Int) (i : Nat) (h : i < (zipWith3 f a b c).length),
      (zipWith3 f a b c).get ⟨i, h⟩ = f (a.getD i 0) (b.getD i 0) (c.getD i 0) := by
  intro a
  induction a with
  | nil =>
    intro b c i h
    simp [zipWith3] at h
  | cons x xs ih =>
    intro b c i h
    cases b with
    | nil => simp [zipWith3] at h
    | cons y ys =>
      cases c with
      | nil => simp [zipWith3] at h
      | cons z zs =>
        cases i with
        | zero => rfl
        | succ j =>
          have h2 : j < (zipWith3 f xs ys zs).length := by
            have h3 := h
            rw [show zipWith3 f (x :: xs) (y :: ys) (z :: zs) =
              f x y z :: zipWith3 f xs ys zs from rfl] at h3
            simpa using h3
          show (zipWith3 f xs ys zs).get ⟨j, h2⟩ = _
          rw [ih ys zs j h2]
          simp

lemma get_zipWith {α : Type} (f : Int → Int → α) :
    ∀ (a b : List Int) (i : Nat) (h : i < (List.zipWith f a b).length),
      (List.zipWith f a b).get ⟨i, h⟩ = f (a.getD i 0) (b.getD i 0) := by
  intro a
  induction a with
  | nil =>
    intro b i h
    simp at h
  | cons x xs ih =>
    intro b i h
    cases b with
    | nil => simp at h
    | cons y ys =>
      cases i with
      | zero => rfl
      | succ j =>
        have h2 : j < (List.zipWith f xs ys).length := by simpa using h
        show (List.zipWith f xs ys).get ⟨j, h2⟩ = _
        rw [ih ys j h2]
        simp

lemma cadd_right_cancel {a b c : Coordinate} (ha : a.length ≤ c.length)
    (hb : b.length ≤ c.length) (h : cadd a c = cadd b c) : a = b := by
  have hlen : a.length = b.length := by
    have h2 := congrArg List.length h
    simp at h2
    omega
  apply list_ext_getD hlen
  intro i hi
  have h2 := congrArg (fun l => l.getD i 0) h
  simp only at h2
  rw [getD_cadd (by omega) (by omega), getD_cadd (by omega) (by omega)] at h2
  omega

lemma exists_getD_ne {a b : Coordinate} (hab : a ≠ b) (hl : a.length = b.length) :
    ∃ i, i < a.length ∧ a.getD i 0 ≠ b.getD i 0 := by
  by_contra hc
  push_neg at hc
  exact hab (list_ext_getD hl fun i hi => hc i hi)

lemma all_pos_getD {l : List Int} (h : (l.all fun s => decide (0 < s)) = true) :
    ∀ i, i < l.length → 0 < l.getD i 0 := by
  intro i hi
  rw [List.all_eq_true] at h
  have h2 := h _ (List.getElem_mem hi)
  rw [List.getD_eq_getElem _ _ hi]
  exact of_decide_eq_true h2

lemma stride_multiple_gap {s d : Int} (hs : 0 < s) {k1 k2 : Nat}
    (hd : d = s * ((k1 : Int) - k2)) (hne : d ≠ 0) : s ≤ d ∨ d ≤ -s := by
  have hm : (k1 : Int) - k2 ≠ 0 := by
    intro h0
    exact hne (by rw [hd, h0, mul_zero])
  rcases lt_or_gt_of_ne hm with h | h
  · right
    have h1 : (k1 : Int) - k2 ≤ -1 := by omega
    have h2 : s * ((k1 : Int) - k2) ≤ s * (-1) := mul_le_mul_of_nonneg_left h1 (le_of_lt hs)
    rw [hd]
    linarith
  · left
    have h1 : (1 : Int) ≤ (k1 : Int) - k2 := by omega
    have h2 : s * 1 ≤ s * ((k1 : Int) - k2) := mul_le_mul_of_nonneg_left h1 (le_of_lt hs)
    rw [hd]
    linarith

lemma is_empty_intersect_of_axis {a b : Roi} {n : Nat} (ha : a.dims_ok n) (hb : b.dims_ok n)
    {i : Nat} (hi : i < n)
    (hax : min (a.offset.getD i 0 + a.shape.getD i 0) (b.offset.getD i 0 + b.shape.getD i 0) ≤
      max (a.offset.getD i 0) (b.offset.getD i 0)) :
    Roi.is_empty (Roi.intersect a b) = true := by
  have hd := intersect_dims_ok ha hb
  unfold Roi.is_empty
  rw [List.any_eq_true]
  have hil : i < (Roi.intersect a b).shape.length := by omega
  refine ⟨(Roi.intersect a b).shape.getD i 0, ?_, ?_⟩
  · rw [List.getD_eq_getElem _ _ hil]
    exact List.getElem_mem hil
  · rw [intersect_shape_getD ha hb hi]
    exact decide_eq_true (by omega)

lemma apply_inclusion_shrink_true {t : Roi} {b : Block}
    (h : (apply_inclusion Fit.shrink t b).1 = true) :
    Roi.contains_point t b.write_roi.get_begin = true ∧
    (apply_inclusion Fit.shrink t b).2 = shrink t b ∧
    (((shrink t b).write_roi.shape.all fun s => decide (0 < s))) = true := by
  by_cases hc : Roi.contains_point t b.write_roi.get_begin = true
  · refine ⟨hc, ?_, ?_⟩
    · simp [apply_inclusion, hc]
    · have h2 := h
      simp [apply_inclusion, hc, Roi.get_shape] at h2
      simpa [Roi.get_shape] using h2
  · exfalso
    have h2 := h
    simp [apply_inclusion, hc] at h2

lemma contains_roi_shift {r w : Roi} {o : Coordinate} {n : Nat}
    (hr : r.dims_ok n) (hw : w.dims_ok n) (ho : o.length = n)
    (h : Roi.contains_roi r w = true) :
    Roi.contains_roi (Roi.shift r o) (Roi.shift w o) = true := by
  rw [@contains_roi_iff (Roi.shift r o) (Roi.shift w o) n (shift_dims_ok hr ho)
    (shift_dims_ok hw ho)]
  intro i hi
  have hcc := (contains_roi_iff hr hw).mp h i hi
  rw [shift_offset_getD hr ho hi, shift_offset_getD hw ho hi]
  simp only [shift_shape]
  omega

lemma fit_output_sub {t : Roi} {b : Block} {n : Nat}
    (ht : t.dims_ok n) (hr : b.read_roi.dims_ok n) (hw : b.write_roi.dims_ok n)
    (hcont : Roi.contains_roi b.read_roi b.write_roi = true)
    (fit : Fit) (hinc : ok_of fit t b = true) :
    (emit_of fit t b).read_roi.dims_ok n ∧
    (emit_of fit t b).write_roi.dims_ok n ∧
    ∀ i, i < n →
      b.read_roi.offset.getD i 0 ≤ (emit_of fit t b).read_roi.offset.getD i 0 ∧
      (emit_of fit t b).read_roi.offset.getD i 0 +
          (emit_of fit t b).read_roi.shape.getD i 0 ≤
        b.read_roi.offset.getD i 0 + b.read_roi.shape.getD i 0 ∧
      b.write_roi.offset.getD i 0 ≤ (emit_of fit t b).write_roi.offset.getD i 0 ∧
      (emit_of fit t b).write_roi.offset.getD i 0 +
          (emit_of fit t b).write_roi.shape.getD i 0 ≤
        b.write_roi.offset.getD i 0 + b.write_roi.shape.getD i 0 := by
  unfold ok_of at hinc
  unfold emit_of
  cases fit with
  | valid => exact ⟨hr, hw, fun i hi => ⟨le_refl _, le_refl _, le_refl _, le_refl _⟩⟩
  | overhang => exact ⟨hr, hw, fun i hi => ⟨le_refl _, le_refl _, le_refl _, le_refl _⟩⟩
  | shrink =>
    obtain ⟨hcp, heq2, hall⟩ := apply_inclusion_shrink_true hinc
    have hee : fit_block Fit.shrink t (apply_inclusion Fit.shrink t b).2 = shrink t b := by
      show shrink t (apply_inclusion Fit.shrink t b).2 = _
      rw [heq2]
      exact shrink_shrink_eq ht hr hw
    rw [hee]
    obtain ⟨⟨hdr1, hdr2⟩, ⟨hdw1, hdw2⟩⟩ := shrink_dims_ok ht hr hw
    refine ⟨⟨hdr1, hdr2⟩, ⟨hdw1, hdw2⟩, ?_⟩
    intro i hi
    have hcc := (contains_roi_iff hr hw).mp hcont i hi
    have hwp := all_pos_getD hall i (by omega)
    rw [shrink_write_shape_getD ht hr hw hi, intersect_offset_getD ht hr hi,
      intersect_shape_getD ht hr hi] at hwp
    refine ⟨?_, ?_, ?_, ?_⟩
    · rw [shrink_read_roi, intersect_offset_getD ht hr hi]
      omega
    · rw [shrink_read_roi, intersect_offset_getD ht hr hi, intersect_shape_getD ht hr hi]
      omega
    · rw [shrink_write_offset_getD ht hr hw hi]
      omega
    · rw [shrink_write_offset_getD ht hr hw hi, shrink_write_shape_getD ht hr hw hi,
        intersect_offset_getD ht hr hi, intersect_shape_getD ht hr hi]
      omega

lemma option_mem_ite {α : Type} {c : Bool} {x p : α} :
    (p ∈ (if c = true then some x else none)) ↔ c = true ∧ p = x := by
  cases c <;> simp [eq_comm]

lemma blocks_for_level_eq (t r w : Roi) (stride lo : Coordinate) (cs : List Coordinate)
    (fit : Fit) :
    blocks_for_level t r w stride lo cs fit =
      enumerate_blocks t r w cs
        ((cartProd (zipWith3 (fun a e s2 => rangeStep a e s2) lo t.get_shape stride)).map
          (fun o => cadd o (csub t.get_begin r.get_begin))) fit := rfl

lemma enumerate_blocks_eq (t r w : Roi) (cs offs : List Coordinate) (fit : Fit) :
    enumerate_blocks t r w cs offs fit = offs.filterMap (fun o =>
      if ok_of fit t (candidate_block t r w o) then
        some (emit_of fit t (candidate_block t r w o),
          upstreams_of fit t (mut_of fit t (candidate_block t r w o)) cs)
      else none) := rfl

lemma level_block_offsets_facts {total read : Roi} {stride lo : Coordinate} {n : Nat}
    (ht : total.dims_ok n) (hr : read.dims_ok n) (hs : stride.length = n) (hlo : lo.length = n)
    (hspos : ∀ i, i < n → 0 < stride.getD i 0) :
    ((cartProd (zipWith3 (fun a e s2 => rangeStep a e s2) lo total.get_shape stride)).map
      (fun o => cadd o (csub total.get_begin read.get_begin))).Nodup ∧
    ∀ o ∈ (cartProd (zipWith3 (fun a e s2 => rangeStep a e s2) lo total.get_shape stride)).map
      (fun o => cadd o (csub total.get_begin read.get_begin)),
      o.length = n ∧
      ∀ i, i < n → ∃ k : Nat,
        o.getD i 0 = (total.offset.getD i 0 - read.offset.getD i 0) +
          (lo.getD i 0 + stride.getD i 0 * k) := by
  have ht1 := ht.1
  have ht2 := ht.2
  have hr1 := hr.1
  have hr2 := hr.2
  have hdims_len : (zipWith3 (fun a e s2 => rangeStep a e s2) lo total.get_shape stride).length
      = n := by
    rw [length_zipWith3, Roi.get_shape]
    omega
  have hdims_get : ∀ i, ∀ h : i < (zipWith3 (fun a e s2 => rangeStep a e s2) lo
      total.get_shape stride).length,
      (zipWith3 (fun a e s2 => rangeStep a e s2) lo total.get_shape stride).get ⟨i, h⟩ =
        rangeStep (lo.getD i 0) (total.shape.getD i 0) (stride.getD i 0) := by
    intro i h
    rw [get_zipWith3]
    rw [Roi.get_shape]
  have hshift_len : (csub total.get_begin read.get_begin).length = n := by
    rw [Roi.get_begin, Roi.get_begin]
    simp
    omega
  have hcart_nodup : (cartProd (zipWith3 (fun a e s2 => rangeStep a e s2) lo
      total.get_shape stride)).Nodup := by
    apply nodup_cartProd
    intro l hl
    obtain ⟨⟨i, hi⟩, rfl⟩ := List.mem_iff_get.mp hl
    rw [hdims_get i hi]
    exact nodup_rangeStep (hspos i (by omega))
  have hcart_mem : ∀ o2 ∈ cartProd (zipWith3 (fun a e s2 => rangeStep a e s2) lo
      total.get_shape stride),
      o2.length = n ∧ ∀ i, i < n → ∃ k : Nat,
        o2.getD i 0 = lo.getD i 0 + stride.getD i 0 * k := by
    intro o2 ho2
    have hf := mem_cartProd.mp ho2
    obtain ⟨hlen, hget⟩ := List.forall₂_iff_get.mp hf
    refine ⟨by omega, ?_⟩
    intro i hi
    have hi1 : i < o2.length := by omega
    have hi2 : i < (zipWith3 (fun a e s2 => rangeStep a e s2) lo total.get_shape
      stride).length := by omega
    have hmem := hget i hi1 hi2
    rw [hdims_get i hi2] at hmem
    obtain ⟨k, hk, _⟩ := (mem_rangeStep (hspos i hi)).mp hmem
    refine ⟨k, ?_⟩
    rw [← hk]
    rw [List.getD_eq_getElem _ _ hi1]
    rfl
  constructor
  · show (List.map _ _).Pairwise _
    rw [List.pairwise_map]
    refine List.Pairwise.imp_of_mem ?_ hcart_nodup
    intro a b ha hb hne heq
    exact hne (cadd_right_cancel
      (le_of_eq ((hcart_mem a ha).1.trans hshift_len.symm))
      (le_of_eq ((hcart_mem b hb).1.trans hshift_len.symm)) heq)
  · intro o ho
    rw [List.mem_map] at ho
    obtain ⟨o2, ho2, rfl⟩ := ho
    obtain ⟨hol, hofacts⟩ := hcart_mem o2 ho2
    refine ⟨by simp [Roi.get_begin]; omega, ?_⟩
    intro i hi
    obtain ⟨k, hk⟩ := hofacts i hi
    refine ⟨k, ?_⟩
    rw [getD_cadd (by omega) (by omega), hk, Roi.get_begin, Roi.get_begin,
      getD_csub (by omega) (by omega)]
    ring

lemma pairwise_enumerate (R : Block → Block → Prop) {l : List Coordinate}
    {cond : Coordinate → Bool} {emit : Coordinate → Block} {ups : Coordinate → List Block}
    (hn : l.Nodup)
    (h : ∀ o1 ∈ l, ∀ o2 ∈ l, o1 ≠ o2 → cond o1 = true → cond o2 = true →
      R (emit o1) (emit o2)) :
    (l.filterMap (fun o => if cond o then some (emit o, ups o) else none)).Pairwise
      (fun p q => R p.1 q.1) := by
  rw [List.pairwise_filterMap]
  refine List.Pairwise.imp_of_mem ?_ hn
  intro o1 o2 ho1 ho2 hne p hp q hq
  rw [option_mem_ite] at hp hq
  obtain ⟨hc1, rfl⟩ := hp
  obtain ⟨hc2, rfl⟩ := hq
  exact h o1 ho1 o2 ho2 hne hc1 hc2

lemma pair_blocks_disjoint {p q : Block} {n i0 : Nat}
    {rb rsh wb wsh s u v : Int}
    (hpr : p.read_roi.dims_ok n) (hpw : p.write_roi.dims_ok n)
    (hqr : q.read_roi.dims_ok n) (hqw : q.write_roi.dims_ok n)
    (hi0 : i0 < n)
    (hb1 : rb + u ≤ p.read_roi.offset.getD i0 0)
    (hb2 : p.read_roi.offset.getD i0 0 + p.read_roi.shape.getD i0 0 ≤ rb + u + rsh)
    (hb3 : wb + u ≤ p.write_roi.offset.getD i0 0)
    (hb4 : p.write_roi.offset.getD i0 0 + p.write_roi.shape.getD i0 0 ≤ wb + u + wsh)
    (hd1 : rb + v ≤ q.read_roi.offset.getD i0 0)
    (hd2 : q.read_roi.offset.getD i0 0 + q.read_roi.shape.getD i0 0 ≤ rb + v + rsh)
    (hd3 : wb + v ≤ q.write_roi.offset.getD i0 0)
    (hd4 : q.write_roi.offset.getD i0 0 + q.write_roi.shape.getD i0 0 ≤ wb + v + wsh)
    (hs1 : wb + wsh - rb ≤ s)
    (hs2 : rb + rsh - wb ≤ s)
    (hgap : s ≤ u - v ∨ u - v ≤ -s) :
    (Roi.is_empty (Roi.intersect p.write_roi q.read_roi) = true ∧
      Roi.is_empty (Roi.intersect p.read_roi q.write_roi) = true) ∧
    (Roi.is_empty (Roi.intersect q.write_roi p.read_roi) = true ∧
      Roi.is_empty (Roi.intersect q.read_roi p.write_roi) = true) :=
  ⟨⟨is_empty_intersect_of_axis hpw hqr hi0 (by omega),
      is_empty_intersect_of_axis hpr hqw hi0 (by omega)⟩,
    ⟨is_empty_intersect_of_axis hqw hpr hi0 (by omega),
      is_empty_intersect_of_axis hqr hpw hi0 (by omega)⟩⟩

lemma blocks_for_level_pairwise {total read write : Roi} {stride lo : Coordinate}
    {cs : List Coordinate} {fit : Fit} {n : Nat}
    (ht : total.dims_ok n) (hr : read.dims_ok n) (hw : write.dims_ok n)
    (hcont : Roi.contains_roi read write = true)
    (hwpos : ∀ i, i < n → 0 < write.shape.getD i 0)
    (hst : compute_level_stride read write = Except.ok stride)
    (hlo : lo.length = n) :
    (blocks_for_level total read write stride lo cs fit).Pairwise
      (fun p q =>
        (Roi.is_empty (Roi.intersect p.1.write_roi q.1.read_roi) = true ∧
          Roi.is_empty (Roi.intersect p.1.read_roi q.1.write_roi) = true) ∧
        (Roi.is_empty (Roi.intersect q.1.write_roi p.1.read_roi) = true ∧
          Roi.is_empty (Roi.intersect q.1.read_roi p.1.write_roi) = true)) := by
  obtain ⟨hslen, hsfacts⟩ := stride_facts hr hw hwpos hst
  have hspos : ∀ i, i < n → 0 < stride.getD i 0 := fun i hi => (hsfacts i hi).2.2.1
  obtain ⟨hnodup, hmem⟩ := level_block_offsets_facts ht hr hslen hlo hspos
  rw [blocks_for_level_eq, enumerate_blocks_eq]
  refine pairwise_enumerate
    (fun a b =>
      (Roi.is_empty (Roi.intersect a.write_roi b.read_roi) = true ∧
        Roi.is_empty (Roi.intersect a.read_roi b.write_roi) = true) ∧
      (Roi.is_empty (Roi.intersect b.write_roi a.read_roi) = true ∧
        Roi.is_empty (Roi.intersect b.read_roi a.write_roi) = true))
    hnodup ?_
  intro o1 ho1 o2 ho2 hne hin1 hin2
  obtain ⟨ho1len, ho1f⟩ := hmem o1 ho1
  obtain ⟨ho2len, ho2f⟩ := hmem o2 ho2
  have hc1 : Roi.contains_roi (Roi.shift read o1) (Roi.shift write o1) = true :=
    contains_roi_shift hr hw ho1len hcont
  have hc2 : Roi.contains_roi (Roi.shift read o2) (Roi.shift write o2) = true :=
    contains_roi_shift hr hw ho2len hcont
  obtain ⟨hpr, hpw, hpb⟩ :=
    fit_output_sub ht (shift_dims_ok hr ho1len) (shift_dims_ok hw ho1len) hc1 fit hin1
  obtain ⟨hqr, hqw, hqb⟩ :=
    fit_output_sub ht (shift_dims_ok hr ho2len) (shift_dims_ok hw ho2len) hc2 fit hin2
  obtain ⟨i0, hi0l, hne0⟩ := exists_getD_ne hne (by rw [ho1len, ho2len])
  have hi0 : i0 < n := by rw [ho1len] at hi0l; exact hi0l
  obtain ⟨k1, hk1⟩ := ho1f i0 hi0
  obtain ⟨k2, hk2⟩ := ho2f i0 hi0
  have hgap := stride_multiple_gap (hspos i0 hi0)
    (show o1.getD i0 0 - o2.getD i0 0 = stride.getD i0 0 * ((k1 : Int) - k2) by
      rw [hk1, hk2]; ring) (sub_ne_zero_of_ne hne0)
  obtain ⟨hs1, hs2, hs3, hs4⟩ := hsfacts i0 hi0
  obtain ⟨hb1, hb2, hb3, hb4⟩ := hpb i0 hi0
  obtain ⟨hd1, hd2, hd3, hd4⟩ := hqb i0 hi0
  simp only [candidate_block] at hb1 hb2 hb3 hb4 hd1 hd2 hd3 hd4
  rw [shift_offset_getD hr ho1len hi0] at hb1 hb2
  rw [shift_offset_getD hw ho1len hi0] at hb3 hb4
  rw [shift_offset_getD hr ho2len hi0] at hd1 hd2
  rw [shift_offset_getD hw ho2len hi0] at hd3 hd4
  simp only [shift_shape] at hb2 hb4 hd2 hd4
  exact pair_blocks_disjoint hpr hpw hqr hqw hi0 hb1 hb2 hb3 hb4 hd1 hd2 hd3 hd4 hs1 hs2 hgap

/-! ### Claim C1 -/

/-- C1: for every valid geometry and every fit policy, two blocks at distinct
positions of the same level (the blocks generated from one level offset) are
geometrically independent: the write ROI of either one has empty intersection
with the read ROI of the other. -/
theorem C1_intra_level_independence {total read write : Roi} {stride lo : Coordinate}
    {cs : List Coordinate} {fit : Fit} {n : Nat}
    (ht : total.dims_ok n) (hr : read.dims_ok n) (hw : write.dims_ok n)
    (hcont : Roi.contains_roi read write = true)
    (hwpos : ∀ i, i < n → 0 < write.shape.getD i 0)
    (hst : compute_level_stride read write = Except.ok stride)
    (hlo : lo.length = n)
    (i j : Nat)
    (hi : i < (blocks_for_level total read write stride lo cs fit).length)
    (hj : j < (blocks_for_level total read write stride lo cs fit).length)
    (hij : i ≠ j) :
    Roi.is_empty (Roi.intersect
      ((blocks_for_level total read write stride lo cs fit).get ⟨i, hi⟩).1.write_roi
      ((blocks_for_level total read write stride lo cs fit).get ⟨j, hj⟩).1.read_roi) = true ∧
    Roi.is_empty (Roi.intersect
      ((blocks_for_level total read write stride lo cs fit).get ⟨i, hi⟩).1.read_roi
      ((blocks_for_level total read write stride lo cs fit).get ⟨j, hj⟩).1.write_roi) = true := by
  have hp2 := @blocks_for_level_pairwise total read write stride lo cs fit n
    ht hr hw hcont hwpos hst hlo
  rw [List.pairwise_iff_getElem] at hp2
  simp only [List.get_eq_getElem]
  rcases Nat.lt_or_ge i j with hlt | hge
  · exact (hp2 i j hi hj hlt).1
  · have hlt2 : j < i := by omega
    exact (hp2 j i hj hi hlt2).2

/-- Witness for C1 at the S2 scenario, level offset 10, blocks 0 and 1. -/
theorem C1_intra_level_independence_witness :
    Roi.is_empty (Roi.intersect
      ((blocks_for_level (Roi.mk [0] [100]) (Roi.mk [0] [30]) (Roi.mk [10] [10])
        ([20] : Coordinate) ([10] : Coordinate) [] Fit.valid).get ⟨0, by decide⟩).1.write_roi
      ((blocks_for_level (Roi.mk [0] [100]) (Roi.mk [0] [30]) (Roi.mk [10] [10])
        ([20] : Coordinate) ([10] : Coordinate) [] Fit.valid).get ⟨1, by decide⟩).1.read_roi)
      = true ∧
    Roi.is_empty (Roi.intersect
      ((blocks_for_level (Roi.mk [0] [100]) (Roi.mk [0] [30]) (Roi.mk [10] [10])
        ([20] : Coordinate) ([10] : Coordinate) [] Fit.valid).get ⟨0, by decide⟩).1.read_roi
      ((blocks_for_level (Roi.mk [0] [100]) (Roi.mk [0] [30]) (Roi.mk [10] [10])
        ([20] : Coordinate) ([10] : Coordinate) [] Fit.valid).get ⟨1, by decide⟩).1.write_roi)
      = true :=
  @C1_intra_level_independence (Roi.mk [0] [100]) (Roi.mk [0] [30]) (Roi.mk [10] [10])
    ([20] : Coordinate) ([10] : Coordinate) [] Fit.valid 1
    (by decide) (by decide) (by decide) (by decide) (by decide) (by rfl) (by decide)
    0 1 (by decide) (by decide) (by decide)

/-! ### Decomposition of `create_dependency_graph` -/

lemma mut_of_eq (fit : Fit) (t : Roi) (b : Block) :
    mut_of fit t b = (apply_inclusion fit t b).2 := rfl

lemma create_ok_elim {t r w : Roi} {rwc : Bool} {fit : Fit}
    {bs : List (Block × List Block)}
    (hok : create_dependency_graph t r w rwc fit = Except.ok bs) :
    ∃ stride, compute_level_stride r w = Except.ok stride ∧
      bs = ((compute_level_offsets w stride).zip
        (level_conflicts (compute_level_offsets w stride) stride rwc)).flatMap
        (fun lc => blocks_for_level t r w stride lc.1 lc.2 fit) := by
  unfold create_dependency_graph at hok
  cases hcs : compute_level_stride r w with
  | error e =>
    rw [hcs] at hok
    exact absurd hok (by simp)
  | ok stride =>
    rw [hcs] at hok
    simp only [Except.ok.injEq] at hok
    exact ⟨stride, rfl, hok.symm⟩

lemma zip_go_elim (stride : Coordinate) (rwc : Bool) :
    ∀ (rest : List Coordinate) (prev : Coordinate), (prev :: rest).Nodup →
      ∀ {lo cs}, (lo, cs) ∈ rest.zip (level_conflicts_go stride rwc prev rest) →
      lo ∈ rest ∧ (cs = [] ∨ ∃ prv, (prv = prev ∨ prv ∈ rest) ∧ prv ≠ lo ∧
        cs = get_conflict_offsets lo prv stride) := by
  intro rest
  induction rest with
  | nil =>
    intro prev _ lo cs h
    simp [level_conflicts_go] at h
  | cons o tl ih =>
    intro prev hnd lo cs h
    rw [show level_conflicts_go stride rwc prev (o :: tl) =
      (if rwc then get_conflict_offsets o prev stride else []) ::
        level_conflicts_go stride rwc o tl from rfl] at h
    rcases List.mem_cons.mp h with heq | htl
    · have h1 : lo = o ∧ cs = (if rwc then get_conflict_offsets o prev stride else []) := by
        simpa using heq
      obtain ⟨h1a, h1b⟩ := h1
      subst h1a
      subst h1b
      refine ⟨List.mem_cons_self _ _, ?_⟩
      cases rwc with
      | false => exact Or.inl (by simp)
      | true =>
        refine Or.inr ⟨prev, Or.inl rfl, ?_, by simp⟩
        have hnot2 := (List.nodup_cons.mp hnd).1
        intro hcontra
        exact hnot2 (by rw [hcontra]; exact List.mem_cons_self _ _)
    · have hnd2 : (o :: tl).Nodup := (List.nodup_cons.mp hnd).2
      obtain ⟨hmem2, hrest⟩ := ih o hnd2 htl
      refine ⟨List.mem_cons_of_mem _ hmem2, ?_⟩
      rcases hrest with hnil | ⟨prv, hprv, hne, hcs⟩
      · exact Or.inl hnil
      · refine Or.inr ⟨prv, ?_, hne, hcs⟩
        rcases hprv with rfl | hmem3
        · exact Or.inr (List.mem_cons_self _ _)
        · exact Or.inr (List.mem_cons_of_mem _ hmem3)

lemma zip_conflicts_elim {stride : Coordinate} {rwc : Bool} {offsets : List Coordinate}
    (hnd : offsets.Nodup) {lo : Coordinate} {cs : List Coordinate}
    (h : (lo, cs) ∈ offsets.zip (level_conflicts offsets stride rwc)) :
    lo ∈ offsets ∧ (cs = [] ∨ ∃ prv ∈ offsets, prv ≠ lo ∧
      cs = get_conflict_offsets lo prv stride) := by
  cases offsets with
  | nil => simp at h
  | cons o rest =>
    rw [show level_conflicts (o :: rest) stride rwc =
      [] :: level_conflicts_go stride rwc o rest from rfl] at h
    rcases List.mem_cons.mp h with heq | htl
    · have h1 : lo = o ∧ cs = [] := by simpa using heq
      exact ⟨by simp [h1.1], Or.inl h1.2⟩
    · obtain ⟨hmem2, hrest⟩ := zip_go_elim stride rwc rest o hnd htl
      refine ⟨List.mem_cons_of_mem _ hmem2, ?_⟩
      rcases hrest with hnil | ⟨prv, hprv, hne, hcs⟩
      · exact Or.inl hnil
      · refine Or.inr ⟨prv, ?_, hne, hcs⟩
        rcases hprv with rfl | hmem3
        · exact List.mem_cons_self _ _
        · exact List.mem_cons_of_mem _ hmem3

lemma level_offsets_nodup {write : Roi} {stride : Coordinate} {n : Nat}
    (hW : write.dims_ok n)
    (hwpos : ∀ i, i < n → 0 < write.shape.getD i 0) :
    (compute_level_offsets write stride).Nodup := by
  unfold compute_level_offsets
  rw [List.nodup_reverse]
  apply nodup_cartProd
  intro l hl
  obtain ⟨⟨i, hi⟩, rfl⟩ := List.mem_iff_get.mp hl
  have hi3 : i < n := by
    have h5 := hi
    rw [List.length_zipWith, Roi.get_shape] at h5
    have h6 := hW.2
    omega
  rw [get_zipWith]
  rw [Roi.get_shape]
  exact nodup_rangeStep (hwpos i hi3)

lemma level_offsets_mem {write : Roi} {stride : Coordinate} {n : Nat}
    (hW : write.dims_ok n) (hs : stride.length = n)
    (hwpos : ∀ i, i < n → 0 < write.shape.getD i 0)
    {lo : Coordinate} (hlo : lo ∈ compute_level_offsets write stride) :
    lo.length = n ∧ ∀ i, i < n → 0 ≤ lo.getD i 0 ∧ lo.getD i 0 < stride.getD i 0 := by
  unfold compute_level_offsets at hlo
  rw [List.mem_reverse] at hlo
  have hf := mem_cartProd.mp hlo
  obtain ⟨hlen, hget⟩ := List.forall₂_iff_get.mp hf
  have hzl : (List.zipWith (fun e step => rangeStep 0 e step) stride
      write.get_shape).length = n := by
    rw [Roi.get_shape] at *
    simp
    have := hW.2
    omega
  refine ⟨by omega, ?_⟩
  intro i hi
  have hi1 : i < lo.length := by omega
  have hi2 : i < (List.zipWith (fun e step => rangeStep 0 e step) stride
    write.get_shape).length := by omega
  have hmem := hget i hi1 hi2
  rw [get_zipWith] at hmem
  rw [Roi.get_shape] at hmem
  have hb := mem_rangeStep_bounds (hwpos i hi) hmem
  have hgd : lo.getD i 0 = lo.get ⟨i, hi1⟩ := List.getD_eq_getElem lo 0 hi1
  rw [hgd]
  exact hb

/-! ### No self-dependency -/

lemma emit_of_eq (fit : Fit) (t : Roi) (b : Block) :
    emit_of fit t b = fit_block fit t (apply_inclusion fit t b).2 := rfl

lemma conflict_offset_axis {lo prv stride : Coordinate} {n : Nat}
    (hs : stride.length = n) (hlo_len : lo.length = n) (hprv_len : prv.length = n)
    (hlo_b : ∀ i, i < n → 0 ≤ lo.getD i 0 ∧ lo.getD i 0 < stride.getD i 0)
    (hprv_b : ∀ i, i < n → 0 ≤ prv.getD i 0 ∧ prv.getD i 0 < stride.getD i 0)
    (hne : prv ≠ lo) {co : Coordinate}
    (hco : co ∈ get_conflict_offsets lo prv stride) :
    co.length = n ∧ ∃ j, j < n ∧ co.getD j 0 ≠ 0 := by
  unfold get_conflict_offsets at hco
  have hf := mem_cartProd.mp hco
  obtain ⟨hlen, hget⟩ := List.forall₂_iff_get.mp hf
  have hzlen : (List.zipWith (fun op ls => if op < 0 then [op, op + ls] else [op - ls, op])
      (csub prv lo) stride).length = n := by
    simp
    omega
  refine ⟨by omega, ?_⟩
  obtain ⟨j, hjl, hjne⟩ := exists_getD_ne hne (by omega)
  have hj : j < n := by omega
  have hj1 : j < co.length := by omega
  have hj2 : j < (List.zipWith (fun op ls => if op < 0 then [op, op + ls] else [op - ls, op])
    (csub prv lo) stride).length := by omega
  have hmem := hget j hj1 hj2
  rw [get_zipWith] at hmem
  have hΔ : (csub prv lo).getD j 0 = prv.getD j 0 - lo.getD j 0 :=
    getD_csub (by omega) (by omega)
  rw [hΔ] at hmem
  obtain ⟨hb1, hb2⟩ := hlo_b j hj
  obtain ⟨hb3, hb4⟩ := hprv_b j hj
  refine ⟨j, hj, ?_⟩
  have hgd : co.getD j 0 = co.get ⟨j, hj1⟩ := List.getD_eq_getElem co 0 hj1
  rw [hgd]
  by_cases hlt : prv.getD j 0 - lo.getD j 0 < 0
  · rw [if_pos hlt] at hmem
    rw [List.mem_cons, List.mem_singleton] at hmem
    rcases hmem with h | h <;> rw [h] <;> omega
  · rw [if_neg hlt] at hmem
    rw [List.mem_cons, List.mem_singleton] at hmem
    rcases hmem with h | h <;> rw [h] <;> omega

lemma roi_ne_of_getD {a b : Roi} {j : Nat}
    (h : a.offset.getD j 0 ≠ b.offset.getD j 0 ∨ a.shape.getD j 0 ≠ b.shape.getD j 0) :
    a ≠ b := by
  intro he
  rw [he] at h
  rcases h with h | h <;> exact h rfl

lemma plain_conflict_ne {wo co : Int} (hco : co ≠ 0) : wo + co ≠ wo := by omega

lemma shrink_conflict_write_ne {tb tsh cro crs cwo cws co broff brsh woff wsh offp shp : Int}
    (hc1 : cro ≤ cwo) (hc2 : cwo + cws ≤ cro + crs)
    (e1 : broff = max tb cro)
    (e2 : brsh = max (min (tb + tsh) (cro + crs) - max tb cro) 0)
    (e3 : woff = cwo - (cro - max tb cro))
    (e4 : wsh = cws + (cro - max tb cro) +
      (max tb cro + max (min (tb + tsh) (cro + crs) - max tb cro) 0 - (cro + crs)))
    (e5 : offp = (woff + co) - ((broff + co) - max tb (broff + co)))
    (e6 : shp = wsh + ((broff + co) - max tb (broff + co)) +
      (max tb (broff + co) +
        max (min (tb + tsh) ((broff + co) + brsh) - max tb (broff + co)) 0 -
        ((broff + co) + brsh)))
    (hacc : 0 < wsh) (hco : co ≠ 0) :
    offp ≠ woff ∨ shp ≠ wsh := by
  omega

/-! ### Claim C3 -/

/-- C3: the conflict-offset list of level 0 is empty, the list of every later
level L is `get_conflict_offsets` applied to that level's offset and the
preceding level's offset, `get_conflict_offsets` is exactly the Cartesian
product of the per-axis pairs `{Δ, Δ + stride}` (for `Δ < 0`) or
`{Δ − stride, Δ}` (for `Δ ≥ 0`) with `Δ = prev − current` (2^N entries), and
with `read_write_conflict = false` every level's list is empty. -/
theorem C3_conflict_offsets (offsets : List Coordinate) (stride : Coordinate) :
    (∀ rwc, (level_conflicts offsets stride rwc).length = offsets.length) ∧
    (∀ rwc, ∀ h : 0 < (level_conflicts offsets stride rwc).length,
      (level_conflicts offsets stride rwc).get ⟨0, h⟩ = []) ∧
    (∀ i, ∀ h : i < (level_conflicts offsets stride false).length,
      (level_conflicts offsets stride false).get ⟨i, h⟩ = []) ∧
    (∀ i, ∀ h1 : i + 1 < (level_conflicts offsets stride true).length,
      ∀ h2 : i + 1 < offsets.length, ∀ h3 : i < offsets.length,
      (level_conflicts offsets stride true).get ⟨i + 1, h1⟩ =
        get_conflict_offsets (offsets.get ⟨i + 1, h2⟩) (offsets.get ⟨i, h3⟩) stride) ∧
    (∀ lo prev : Coordinate,
      get_conflict_offsets lo prev stride =
        cartProd (List.zipWith (fun op ls => if op < 0 then [op, op + ls] else [op - ls, op])
          (csub prev lo) stride)) ∧
    (∀ lo prev : Coordinate, lo.length = stride.length → prev.length = stride.length →
      (get_conflict_offsets lo prev stride).length = 2 ^ stride.length) := by
  refine ⟨fun rwc => level_conflicts_length offsets stride rwc, ?_, ?_, ?_,
    fun lo prev => rfl, fun lo prev h1 h2 => get_conflict_offsets_length h1 h2⟩
  · intro rwc h
    cases offsets with
    | nil => simp [level_conflicts] at h
    | cons o rest => rfl
  · intro i h
    cases offsets with
    | nil => simp [level_conflicts] at h
    | cons o rest =>
      cases i with
      | zero => rfl
      | succ j =>
        show (level_conflicts_go stride false o rest).get ⟨j, _⟩ = _
        rw [get_congr (level_conflicts_go_eq stride false o rest)]
        simp
  · intro i h1 h2 h3
    cases offsets with
    | nil => simp at h2
    | cons o rest =>
      show (level_conflicts_go stride true o rest).get ⟨i, _⟩ = _
      rw [get_congr (level_conflicts_go_eq stride true o rest)]
      cases i with
      | zero => simp
      | succ j => simp

/-- Witness for C3 at the S2 levels: offsets `[[10], [0]]`, stride `[20]`. -/
theorem C3_conflict_offsets_witness :
    (level_conflicts [[10], [0]] ([20] : Coordinate) true).get ⟨1, by decide⟩ =
      get_conflict_offsets (([[10], [0]] : List Coordinate).get ⟨1, by decide⟩)
        (([[10], [0]] : List Coordinate).get ⟨0, by decide⟩) ([20] : Coordinate) ∧
    (get_conflict_offsets ([0] : Coordinate) ([10] : Coordinate) ([20] : Coordinate)).length =
      2 ^ ([20] : Coordinate).length :=
  ⟨(C3_conflict_offsets [[10], [0]] [20]).2.2.2.1 0 (by decide) (by decide) (by decide),
    (C3_conflict_offsets [[10], [0]] [20]).2.2.2.2.2 [0] [10] (by decide) (by decide)⟩

/-! ### Claim C4 -/

/-- C4: `compute_level_offsets` is the reversed Cartesian product of the
per-axis progressions `0, w, 2w, …` strictly below the level stride, so the
last offset in natural product order becomes level 0; the number of levels is
the product of `level_stride[i] / write_shape[i]`; and for write shape `(10,)`
with level stride `(20,)` the offsets are `[10, 0]`. -/
theorem C4_level_offsets {write : Roi} {stride : Coordinate} {n : Nat}
    (hW : write.dims_ok n) (hstr : stride.length = n)
    (hw : ∀ i, i < n → 0 < write.shape.getD i 0)
    (hpos : ∀ i, i < n → 0 < stride.getD i 0)
    (hdvd : ∀ i, i < n → write.shape.getD i 0 ∣ stride.getD i 0) :
    compute_level_offsets write stride =
      (cartProd (List.zipWith (fun e step => rangeStep 0 e step) stride write.shape)).reverse ∧
    (compute_level_offsets write stride).head? =
      (cartProd (List.zipWith (fun e step => rangeStep 0 e step) stride write.shape)).getLast? ∧
    (compute_level_offsets write stride).length =
      (List.zipWith (fun e w => (e.fdiv w).toNat) stride write.shape).prod ∧
    compute_level_offsets (Roi.mk [0] [10]) [20] = [[10], [0]] := by
  have hW2 := hW.2
  refine ⟨rfl, List.head?_reverse _, ?_, by decide⟩
  show ((cartProd (List.zipWith (fun e step => rangeStep 0 e step) stride
    write.get_shape)).reverse).length = _
  rw [List.length_reverse, cartProd_length, Roi.get_shape, List.map_zipWith]
  rw [zipWith_congr_getD stride write.shape ?_]
  intro i h1 h2
  have hin : i < n := by omega
  rw [length_rangeStep (hw i hin),
    show stride.getD i 0 - 0 - 1 = stride.getD i 0 - 1 by ring,
    count_eq (hw i hin) (hdvd i hin)]

/-- Witness for C4 at the S2 scenario: 2 levels for stride 20, write shape 10. -/
theorem C4_level_offsets_witness :
    (compute_level_offsets (Roi.mk [10] [10]) ([20] : Coordinate)).length =
      (List.zipWith (fun e w => (e.fdiv w).toNat) ([20] : Coordinate)
        (Roi.mk [10] [10]).shape).prod :=
  (@C4_level_offsets (Roi.mk [10] [10]) ([20] : Coordinate) 1
    (by decide) (by decide) (by decide) (by decide) (by decide)).2.2.1

/-! ### Claim C7 -/

/-- C7: for a block accepted by `shrink_possible`, the shrunk block reads
from `total_roi ∩ read_roi`, writes to the grown write ROI, preserves the
componentwise context width `read_roi.shape − write_roi.shape`, and its new
read ROI contains its new write ROI. -/
theorem C7_shrink_postconditions {t : Roi} {b : Block} {n : Nat}
    (ht : t.dims_ok n) (hr : b.read_roi.dims_ok n) (hw : b.write_roi.dims_ok n)
    (hcont : Roi.contains_roi b.read_roi b.write_roi = true)
    (hacc : shrink_possible t b = true) :
    (shrink t b).read_roi = Roi.intersect t b.read_roi ∧
    (shrink t b).write_roi = Roi.grow b.write_roi
      (csub b.read_roi.get_begin (Roi.intersect t b.read_roi).get_begin)
      (csub (Roi.intersect t b.read_roi).get_end b.read_roi.get_end) ∧
    csub (shrink t b).read_roi.shape (shrink t b).write_roi.shape =
      csub b.read_roi.shape b.write_roi.shape ∧
    Roi.contains_roi (shrink t b).read_roi (shrink t b).write_roi = true := by
  obtain ⟨⟨f1, f2⟩, ⟨f3, f4⟩⟩ := shrink_dims_ok ht hr hw
  have e1 := hr.1
  have e2 := hr.2
  have e3 := hw.1
  have e4 := hw.2
  have hcc := (@contains_roi_iff b.read_roi b.write_roi n hr hw).mp hcont
  refine ⟨rfl, rfl, ?_, ?_⟩
  · apply list_ext_getD
    · simp
      omega
    · intro i hi
      have hin : i < n := by simp at hi; omega
      obtain ⟨hc1, hc2⟩ := hcc i hin
      rw [getD_csub (by omega) (by omega), getD_csub (by omega) (by omega),
        shrink_write_shape_getD ht hr hw hin, shrink_read_roi,
        intersect_offset_getD ht hr hin, intersect_shape_getD ht hr hin]
      omega
  · rw [@contains_roi_iff (shrink t b).read_roi (shrink t b).write_roi n ⟨f1, f2⟩ ⟨f3, f4⟩]
    intro i hin
    obtain ⟨hc1, hc2⟩ := hcc i hin
    rw [shrink_write_offset_getD ht hr hw hin, shrink_write_shape_getD ht hr hw hin,
      shrink_read_roi, intersect_offset_getD ht hr hin, intersect_shape_getD ht hr hin]
    omega

/-- Witness for C7: a trailing 1-D block clipped by the total ROI. -/
theorem C7_shrink_postconditions_witness :
    (shrink (Roi.mk [0] [25]) (Block.mk (Roi.mk [0] [25]) (Roi.mk [20] [12]) (Roi.mk [20] [10]))).read_roi =
      Roi.intersect (Roi.mk [0] [25]) (Roi.mk [20] [12]) ∧
    Roi.contains_roi
      (shrink (Roi.mk [0] [25]) (Block.mk (Roi.mk [0] [25]) (Roi.mk [20] [12]) (Roi.mk [20] [10]))).read_roi
      (shrink (Roi.mk [0] [25]) (Block.mk (Roi.mk [0] [25]) (Roi.mk [20] [12]) (Roi.mk [20] [10]))).write_roi = true := by
  have h := @C7_shrink_postconditions (Roi.mk [0] [25])
    (Block.mk (Roi.mk [0] [25]) (Roi.mk [20] [12]) (Roi.mk [20] [10])) 1
    (by decide) (by decide) (by decide) (by decide) (by decide)
  exact ⟨h.1, h.2.2.2⟩

/-! ### Claim C8 -/

/-- C8: `create_dependency_graph` fails with an error (and thus yields no
graph at all) whenever the read ROI does not contain the write ROI or some
write-shape component is zero. -/
theorem C8_invalid_geometry {total read write : Roi} {rwc : Bool} {fit : Fit}
    (h : Roi.contains_roi read write = false ∨ (0 : Int) ∈ write.shape) :
    ∃ msg, create_dependency_graph total read write rwc fit = Except.error msg := by
  obtain ⟨msg, hmsg⟩ := compute_level_stride_err h
  refine ⟨msg, ?_⟩
  unfold create_dependency_graph
  rw [hmsg]

/-- Witness for C8: write ROI not contained in read ROI. -/
theorem C8_invalid_geometry_witness :
    ∃ msg, create_dependency_graph (Roi.mk [0] [10]) (Roi.mk [0] [1]) (Roi.mk [0] [2])
      true Fit.valid = Except.error msg :=
  @C8_invalid_geometry (Roi.mk [0] [10]) (Roi.mk [0] [1]) (Roi.mk [0] [2]) true Fit.valid
    (Or.inl (by decide))

/-! ### Claim C10 -/

/-- C10: `shrink` is idempotent: shrinking a shrunk block changes neither its
read ROI nor its write ROI, which is why the double shrink performed by
`enumerate_blocks` under the shrink fit still emits the once-shrunk block. -/
theorem C10_shrink_idempotent {t : Roi} {b : Block} {n : Nat}
    (ht : t.dims_ok n) (hr : b.read_roi.dims_ok n) (hw : b.write_roi.dims_ok n)
    (hcont : Roi.contains_roi b.read_roi b.write_roi = true) :
    (shrink t (shrink t b)).read_roi = (shrink t b).read_roi ∧
    (shrink t (shrink t b)).write_roi = (shrink t b).write_roi := by
  rw [shrink_shrink_eq ht hr hw]
  exact ⟨rfl, rfl⟩

/-- Witness for C10 at a clipped 1-D block. -/
theorem C10_shrink_idempotent_witness :
    (shrink (Roi.mk [0] [25])
        (shrink (Roi.mk [0] [25])
          (Block.mk (Roi.mk [0] [25]) (Roi.mk [20] [12]) (Roi.mk [20] [10])))).read_roi =
      (shrink (Roi.mk [0] [25])
        (Block.mk (Roi.mk [0] [25]) (Roi.mk [20] [12]) (Roi.mk [20] [10]))).read_roi ∧
    (shrink (Roi.mk [0] [25])
        (shrink (Roi.mk [0] [25])
          (Block.mk (Roi.mk [0] [25]) (Roi.mk [20] [12]) (Roi.mk [20] [10])))).write_roi =
      (shrink (Roi.mk [0] [25])
        (Block.mk (Roi.mk [0] [25]) (Roi.mk [20] [12]) (Roi.mk [20] [10]))).write_roi :=
  @C10_shrink_idempotent (Roi.mk [0] [25])
    (Block.mk (Roi.mk [0] [25]) (Roi.mk [20] [12]) (Roi.mk [20] [10])) 1
    (by decide) (by decide) (by decide) (by decide)

/-! ### Claim C9 -/

/-- C9: `check_and_run` classifies a block as 0 when `pre_check` holds
(whatever `process_function` would do), −2 when `process_function` raises,
−1 when it returns but `post_check` fails, and 1 otherwise; the defaults are
a constantly-false `pre_check` and a constantly-true `post_check`; and
`run_blockwise` reports success iff no per-block result is −1 or −2. -/
theorem C9_executor_outcomes :
    (∀ (pre post : Block → Bool) (proc : Block → ProcOutcome) (b : Block),
      (pre b = true → check_and_run b proc pre post = 0) ∧
      (pre b = false → proc b = ProcOutcome.raises → check_and_run b proc pre post = -2) ∧
      (pre b = false → proc b = ProcOutcome.success → post b = false →
        check_and_run b proc pre post = -1) ∧
      (pre b = false → proc b = ProcOutcome.success → post b = true →
        check_and_run b proc pre post = 1) ∧
      default_pre_check b = false ∧ default_post_check b = true) ∧
    ∀ results : List Int,
      run_blockwise_success results = true ↔ ∀ r ∈ results, r ≠ -1 ∧ r ≠ -2 := by
  constructor
  · intro pre post proc b
    refine ⟨fun h => by simp [check_and_run, h],
      fun h1 h2 => by simp [check_and_run, h1, h2],
      fun h1 h2 h3 => by simp [check_and_run, h1, h2, h3],
      fun h1 h2 h3 => by simp [check_and_run, h1, h2, h3],
      rfl, rfl⟩
  · intro results
    unfold run_blockwise_success
    rw [decide_eq_true_eq]
    constructor
    · intro h r hr
      have h1 : (results.filter (fun r => decide (r = -1))).length = 0 := by omega
      have h2 : (results.filter (fun r => decide (r = -2))).length = 0 := by omega
      rw [List.length_eq_zero, List.filter_eq_nil_iff] at h1 h2
      exact ⟨by simpa using h1 r hr, by simpa using h2 r hr⟩
    · intro h
      have h1 : (results.filter (fun r => decide (r = -1))).length = 0 := by
        rw [List.length_eq_zero, List.filter_eq_nil_iff]
        intro a ha
        simpa using (h a ha).1
      have h2 : (results.filter (fun r => decide (r = -2))).length = 0 := by
        rw [List.length_eq_zero, List.filter_eq_nil_iff]
        intro a ha
        simpa using (h a ha).2
      omega

/-- Witness for C9: a skipped block and an aggregate success check. -/
theorem C9_executor_outcomes_witness :
    check_and_run (Block.mk (Roi.mk [0] [1]) (Roi.mk [0] [1]) (Roi.mk [0] [1]))
        (fun _ => ProcOutcome.raises) (fun _ => true) (fun _ => true) = 0 ∧
    run_blockwise_success [1, 0, 1] = true :=
  ⟨(C9_executor_outcomes.1 (fun _ => true) (fun _ => true) (fun _ => ProcOutcome.raises)
      (Block.mk (Roi.mk [0] [1]) (Roi.mk [0] [1]) (Roi.mk [0] [1]))).1 rfl,
    (C9_executor_outcomes.2 [1, 0, 1]).mpr (by decide)⟩

end Daisy
